import Mathlib

/-!
Shallow embedding of the rubedo object-to-storage mapping layer.

The definitions below are translated from the repository's Python sources:
  * `rubedo/enhanced_fields.py` — field/relation resolution,
  * `rubedo/model.py`           — model compilation (back-reference registration),
  * `rubedo/model_base.py`      — `ModelBase.__getattr__` lazy back-reference defaults,
  * `rubedo/memory_backend.py`  — the in-memory repository, views and search,
  * `rubedo/group.py`           — the Group hierarchy and recursive search.

Machine-level Python values are modelled with `Nat`/`String`/`Option`; Python
exceptions are modelled with `Except String`.
-/

namespace Rubedo

/-! ## Python dict and string helpers

Python `dict.update` lets later entries overwrite earlier ones, while a key
keeps its first-insertion position.  We model a dict as an association list
where *lookups take the last binding* (so `update` is `++`), which matches
`dict.get` semantics, and provide a key-order extraction that matches
`dict.keys()` (first-seen key order).
-/

/-- `d.get(key)` on an association list where later bindings win (the binding
deeper in the list is the most recent `update`). -/
def dictFind {α : Type} : List (String × α) → String → Option α
  | [], _ => none
  | p :: d, key =>
      match dictFind d key with
      | some v => some v
      | none => if p.1 = key then some p.2 else none

/-- `d.get(key, dflt)`. -/
def dictGet {α : Type} (d : List (String × α)) (key : String) (dflt : α) : α :=
  (dictFind d key).getD dflt

/-- `key in d`. -/
def dictHasKey {α : Type} (d : List (String × α)) (key : String) : Bool :=
  d.any (fun p => p.1 = key)

/-- `list(d.keys())`: keys in first-seen order, no repeats. -/
def dictKeys {α : Type} (d : List (String × α)) : List String :=
  d.foldl (fun acc p => if acc.contains p.1 then acc else acc ++ [p.1]) []

/-- Python `pattern in s` for strings: substring containment. -/
def strContainsSub (s pat : String) : Bool :=
  (List.range (s.toList.length + 1)).any
    (fun i => pat.toList.isPrefixOf (s.toList.drop i))

/-! ## `rubedo/enhanced_fields.py` — field/relation resolution

`Relations`, `EnhancedFieldResult` (with `__iadd__`) and
`EnhancedFieldBase.parse`.  A Python type annotation, as `parse` sees it, is
either a plain scalar type, `List[...]` (has `__origin__`), a compiled model
class (has `__enhancedfields__`), or an `EnhancedFieldBase` instance wrapping
an inner type.  A modifier (`EnhancedFieldBase` instance) is embedded by what
its `build` returns: table constraints, column arguments and an optional
relation, with `unwrapped_type` being the wrapped inner type.  (The `post`
hooks of the concrete modifiers only touch constraints and the
`autoincrement` column argument and never raise; they are irrelevant to
relation resolution and omitted.)
-/

inductive Relations where
  | ONE_TO_MANY
  | MANY_TO_ONE
deriving DecidableEq, Repr

inductive FieldType where
  /-- a plain (scalar) Python type such as `str`, `int`, `float` -/
  | scalar (name : String)
  /-- `List[elem]` — has `__origin__` which is a subclass of `List` -/
  | list (elem : FieldType)
  /-- a compiled model class — has `__enhancedfields__` -/
  | model (name : String)
  /-- an `EnhancedFieldBase` instance: `build` contributes the given
      constraints, column arguments and relation, and unwraps to `inner` -/
  | wrapped (relation : Option Relations) (tableConstraints : List String)
      (columnArguments : List (String × Bool)) (inner : FieldType)
deriving DecidableEq, Repr

structure EnhancedFieldResult where
  unwrapped_type : FieldType
  table_constraints : List String := []
  column_arguments : List (String × Bool) := []
  relation : Option Relations := none
deriving DecidableEq, Repr

/-- `EnhancedFieldResult.__iadd__` (enhanced_fields.py lines 29-40).
The Python code mutates `self` and may raise `TypeError`; an exception aborts
the whole resolution, so we return the merged result in `Except`. -/
def iadd (self other : EnhancedFieldResult) : Except String EnhancedFieldResult := do
  let args := self.column_arguments ++ other.column_arguments
  let rel ← match self.relation, other.relation with
    | some r, some r2 =>
        if r = r2 then pure (some r)
        else Except.error "TypeError: More than one relation requested"
    | some r, none => pure (some r)
    | none, r2 => pure r2
  if rel = some Relations.ONE_TO_MANY ∧ dictGet args "primary_key" false then
    Except.error "TypeError: ONE_TO_MANY relationship cannot be used as a primary key"
  else
    pure { unwrapped_type := other.unwrapped_type,
           table_constraints := self.table_constraints ++ other.table_constraints,
           column_arguments := args,
           relation := rel }

/-- The `EnhancedFieldResult` returned by a modifier's `build`:
`unwrapped_type` is the wrapped inner type. -/
def buildResult (rel : Option Relations) (tc : List String)
    (args : List (String × Bool)) (inner : FieldType) : EnhancedFieldResult :=
  { unwrapped_type := inner, table_constraints := tc,
    column_arguments := args, relation := rel }

/-- The implicit relation inference at the end of `parse`
(enhanced_fields.py lines 123-131): `relation_result` starts from the
current `unwrapped_type`; a `List[...]` type implies ONE_TO_MANY with the
element type as the new unwrapped type; a compiled model implies
MANY_TO_ONE. -/
def relationResult (ft : FieldType) : EnhancedFieldResult :=
  match ft with
  | FieldType.list elem =>
      { unwrapped_type := elem, relation := some Relations.ONE_TO_MANY }
  | FieldType.model m =>
      { unwrapped_type := FieldType.model m, relation := some Relations.MANY_TO_ONE }
  | ft => { unwrapped_type := ft }

/-- The `while isinstance(field_type, cls)` loop of `parse` followed by the
relation inference merge.  The loop invariant of the source is that after each
`result += field_type.build(...)` the working type is `result.unwrapped_type`,
i.e. the modifier's inner type. -/
def parseLoop : FieldType → EnhancedFieldResult → Except String EnhancedFieldResult
  | FieldType.wrapped rel tc args inner, result => do
      let r ← iadd result (buildResult rel tc args inner)
      parseLoop inner r
  | ft, result => iadd result (relationResult ft)

/-- `EnhancedFieldBase.parse` (enhanced_fields.py lines 105-136), for a field
of declared type `ft`. -/
def parse (ft : FieldType) : Except String EnhancedFieldResult :=
  parseLoop ft { unwrapped_type := ft }

/-! Spec-side descriptions of a modifier chain, used to state the claims
about resolution.  These follow the specification's wording, unlike the
definitions above which follow the code. -/

/-- The modifier chain of a declared type, outermost first:
each entry is a modifier's (relation assertion, column arguments). -/
def chainMods : FieldType → List (Option Relations × List (String × Bool))
  | FieldType.wrapped rel _ args inner => (rel, args) :: chainMods inner
  | _ => []

/-- The raw type remaining after the modifier chain is exhausted. -/
def coreType : FieldType → FieldType
  | FieldType.wrapped _ _ _ inner => coreType inner
  | ft => ft

/-- The explicit relation kinds asserted by modifiers of the chain. -/
def explicitRels (ft : FieldType) : List Relations :=
  (chainMods ft).filterMap (·.1)

/-- The relation kind implied by the remaining raw type, per the spec:
collection ⇒ ONE_TO_MANY, compiled model ⇒ MANY_TO_ONE, else none. -/
def inferredRel (ft : FieldType) : Option Relations :=
  match coreType ft with
  | FieldType.list _ => some Relations.ONE_TO_MANY
  | FieldType.model _ => some Relations.MANY_TO_ONE
  | _ => none

/-- "two modifiers in the chain assert distinct explicit relation kinds" -/
def twoDistinctExplicitRels (ft : FieldType) : Bool :=
  (explicitRels ft).contains Relations.ONE_TO_MANY &&
    (explicitRels ft).contains Relations.MANY_TO_ONE

/-- "a primary-key modifier" — a modifier of the chain whose column
arguments assert `primary_key`. -/
def hasPrimaryKeyMod (ft : FieldType) : Bool :=
  (chainMods ft).any (fun m => dictGet m.2 "primary_key" false)

/-- "a primary-key modifier is combined with a type whose resolution implies
a ONE_TO_MANY relation" -/
def pkWithOneToManyType (ft : FieldType) : Bool :=
  hasPrimaryKeyMod ft && (inferredRel ft == some Relations.ONE_TO_MANY)

/-- Does the whole chain have no explicit relation assertion? -/
def chainNoRelation (ft : FieldType) : Prop :=
  explicitRels ft = []

/-- The unwrapped type the spec predicts for a chain without explicit
relations: the element type for a collection, the raw type otherwise. -/
def specUnwrapped (ft : FieldType) : FieldType :=
  match coreType ft with
  | FieldType.list x => x
  | c => c

/-- Did resolution fail (raise)? -/
def resolutionFails (ft : FieldType) : Bool :=
  match parse ft with
  | Except.ok _ => false
  | Except.error _ => true

/-- All relation assertions seen during resolution, in merge order: the
chain's explicit assertions followed by the type-inferred one. -/
def allRels (ft : FieldType) : List Relations :=
  explicitRels ft ++ (inferredRel ft).toList

/-- No modifier of the chain binds the `primary_key` column argument to
`False` (every concrete modifier of the repository satisfies this — the
`PrimaryKey` modifier binds it to `True`). -/
def pkPositive (ft : FieldType) : Prop :=
  ∀ m ∈ chainMods ft, ∀ p ∈ m.2, p.1 = "primary_key" → p.2 = true

lemma explicitRels_wrapped (rel : Option Relations) (tc : List String)
    (args : List (String × Bool)) (inner : FieldType) :
    explicitRels (FieldType.wrapped rel tc args inner) =
      rel.toList ++ explicitRels inner := by
  cases rel <;> simp [explicitRels, chainMods, List.filterMap]

lemma iadd_acc_none (acc other : EnhancedFieldResult) (hacc : acc.relation = none) :
    iadd acc other =
      if other.relation = some Relations.ONE_TO_MANY ∧
          dictGet (acc.column_arguments ++ other.column_arguments)
            "primary_key" false then
        Except.error
          "TypeError: ONE_TO_MANY relationship cannot be used as a primary key"
      else
        Except.ok { unwrapped_type := other.unwrapped_type,
                    table_constraints :=
                      acc.table_constraints ++ other.table_constraints,
                    column_arguments :=
                      acc.column_arguments ++ other.column_arguments,
                    relation := other.relation } := by
  unfold iadd
  rw [hacc]
  cases h : other.relation <;>
    simp [h, bind, Except.bind, pure, Except.pure]

lemma parseLoop_chainNoRelation :
    ∀ (ft : FieldType) (acc r : EnhancedFieldResult),
      chainNoRelation ft → acc.relation = none →
      parseLoop ft acc = Except.ok r →
      r.relation = inferredRel ft ∧ r.unwrapped_type = specUnwrapped ft := by
  intro ft
  induction ft with
  | scalar s =>
      intro acc r _ hacc hok
      rw [show parseLoop (FieldType.scalar s) acc
            = iadd acc (relationResult (FieldType.scalar s)) from rfl,
          iadd_acc_none _ _ hacc] at hok
      simp [relationResult] at hok
      simp [← hok, inferredRel, coreType, specUnwrapped]
  | list elem ih =>
      intro acc r _ hacc hok
      rw [show parseLoop (FieldType.list elem) acc
            = iadd acc (relationResult (FieldType.list elem)) from rfl,
          iadd_acc_none _ _ hacc] at hok
      simp only [relationResult] at hok
      split at hok
      · exact Except.noConfusion hok
      · simp only [Except.ok.injEq] at hok
        simp [← hok, inferredRel, coreType, specUnwrapped]
  | model m =>
      intro acc r _ hacc hok
      rw [show parseLoop (FieldType.model m) acc
            = iadd acc (relationResult (FieldType.model m)) from rfl,
          iadd_acc_none _ _ hacc] at hok
      simp [relationResult] at hok
      simp [← hok, inferredRel, coreType, specUnwrapped]
  | wrapped rel tc args inner ih =>
      intro acc r hnone hacc hok
      have hrels : rel = none ∧ chainNoRelation inner := by
        have h := hnone
        simp only [chainNoRelation, explicitRels_wrapped] at h
        cases rel
        · exact ⟨rfl, by simpa [chainNoRelation] using h⟩
        · simp at h
      obtain ⟨hrel, hinner⟩ := hrels
      subst hrel
      rw [show parseLoop (FieldType.wrapped none tc args inner) acc
            = (iadd acc (buildResult none tc args inner) >>= parseLoop inner)
          from rfl,
          iadd_acc_none _ _ hacc] at hok
      simp only [buildResult] at hok
      rw [if_neg (by simp)] at hok
      simp only [bind, Except.bind] at hok
      have := ih _ r hinner rfl hok
      simpa [inferredRel, coreType, specUnwrapped] using this

/-- C3: for a field whose modifier chain specifies no relation kind, the
resolved relation kind and unwrapped type are determined by the shape of the
remaining raw type: `List[X]` gives ONE_TO_MANY with unwrapped type `X`, a
compiled model gives MANY_TO_ONE targeting that model, anything else gives no
relation (plain scalar column). -/
theorem parse_relation_inference (ft : FieldType) (r : EnhancedFieldResult)
    (hnorel : chainNoRelation ft) (hok : parse ft = Except.ok r) :
    (∀ x, coreType ft = FieldType.list x →
        r.relation = some Relations.ONE_TO_MANY ∧ r.unwrapped_type = x) ∧
    (∀ m, coreType ft = FieldType.model m →
        r.relation = some Relations.MANY_TO_ONE ∧
          r.unwrapped_type = FieldType.model m) ∧
    (∀ s, coreType ft = FieldType.scalar s →
        r.relation = none ∧ r.unwrapped_type = FieldType.scalar s) := by
  have h := parseLoop_chainNoRelation ft _ r hnorel rfl hok
  refine ⟨?_, ?_, ?_⟩
  · intro x hx
    constructor
    · rw [h.1]; simp [inferredRel, hx]
    · rw [h.2]; simp [specUnwrapped, hx]
  · intro m hm
    constructor
    · rw [h.1]; simp [inferredRel, hm]
    · rw [h.2]; simp [specUnwrapped, hm]
  · intro s hs
    constructor
    · rw [h.1]; simp [inferredRel, hs]
    · rw [h.2]; simp [specUnwrapped, hs]

/-- Witness for C3 at the concrete declared type
`Indexed(List[str])`-like chain: one relation-free modifier over `List[str]`. -/
theorem parse_relation_inference_witness :
    { unwrapped_type := FieldType.scalar "str", table_constraints := ["ix"],
      relation := some Relations.ONE_TO_MANY
      : EnhancedFieldResult }.relation = some Relations.ONE_TO_MANY ∧
    { unwrapped_type := FieldType.scalar "str", table_constraints := ["ix"],
      relation := some Relations.ONE_TO_MANY
      : EnhancedFieldResult }.unwrapped_type = FieldType.scalar "str" :=
  (parse_relation_inference
      (FieldType.wrapped none ["ix"] [] (FieldType.list (FieldType.scalar "str")))
      { unwrapped_type := FieldType.scalar "str", table_constraints := ["ix"],
        relation := some Relations.ONE_TO_MANY }
      (by simp [chainNoRelation, explicitRels, chainMods])
      (by rfl)).1 (FieldType.scalar "str") rfl

/-! Association-list (Python dict) lemmas used to settle the resolution
claims. -/

lemma dictFind_append {α : Type} (A B : List (String × α)) (k : String) :
    dictFind (A ++ B) k
      = match dictFind B k with
        | some v => some v
        | none => dictFind A k := by
  induction A with
  | nil => cases h : dictFind B k <;> simp [dictFind, h]
  | cons p A ih =>
      show (match dictFind (A ++ B) k with
            | some v => some v
            | none => if p.1 = k then some p.2 else none) = _
      rw [ih]
      cases dictFind B k with
      | some v => rfl
      | none => rfl

lemma dictFind_eq_none_iff {α : Type} (d : List (String × α)) (k : String) :
    dictFind d k = none ↔ ∀ p ∈ d, p.1 ≠ k := by
  induction d with
  | nil => simp [dictFind]
  | cons p d ih =>
      show (match dictFind d k with
            | some v => some v
            | none => if p.1 = k then some p.2 else none) = none ↔ _
      cases h : dictFind d k with
      | some v =>
          refine iff_of_false (by simp) (fun hall => ?_)
          have hnone : dictFind d k = none :=
            ih.mpr (fun q hq => hall q (List.mem_cons_of_mem _ hq))
          rw [h] at hnone
          exact Option.noConfusion hnone
      | none =>
          have hall := ih.mp h
          by_cases hp : p.1 = k
          · exact iff_of_false (by simp [hp])
              (fun hall2 => hall2 p (List.mem_cons_self p d) hp)
          · refine iff_of_true (by simp [hp]) (fun q hq => ?_)
            rcases List.mem_cons.mp hq with rfl | hq2
            · exact hp
            · exact hall q hq2

lemma dictHasKey_false_iff {α : Type} (d : List (String × α)) (k : String) :
    dictHasKey d k = false ↔ ∀ p ∈ d, p.1 ≠ k := by
  simp [dictHasKey]

lemma dictFind_none_iff_hasKey {α : Type} (d : List (String × α)) (k : String) :
    dictFind d k = none ↔ dictHasKey d k = false := by
  rw [dictFind_eq_none_iff, dictHasKey_false_iff]

lemma dictFind_mem {α : Type} {d : List (String × α)} {k : String} {v : α}
    (h : dictFind d k = some v) : ∃ p ∈ d, p.1 = k ∧ p.2 = v := by
  induction d with
  | nil => exact Option.noConfusion h
  | cons p d ih =>
      rw [show dictFind (p :: d) k
            = (match dictFind d k with
               | some w => some w
               | none => if p.1 = k then some p.2 else none) from rfl] at h
      cases h2 : dictFind d k with
      | some w =>
          rw [h2] at h
          simp at h
          obtain ⟨q, hq, hqk, hqv⟩ := ih (by rw [h2, h])
          exact ⟨q, List.mem_cons_of_mem _ hq, hqk, hqv⟩
      | none =>
          rw [h2] at h
          by_cases hp : p.1 = k
          · simp [hp] at h
            exact ⟨p, List.mem_cons_self p d, hp, h⟩
          · simp [hp] at h

/-- For a dict whose bindings of `k` are all `true`, the looked-up value is
`true` exactly when the key is present. -/
lemma dictGet_of_positive {d : List (String × Bool)} {k : String}
    (hpos : ∀ p ∈ d, p.1 = k → p.2 = true) :
    dictGet d k false = dictHasKey d k := by
  cases h : dictFind d k with
  | some v =>
      obtain ⟨q, hq, hqk, hqv⟩ := dictFind_mem h
      have hv : v = true := hqv ▸ hpos q hq hqk
      have hkey : dictHasKey d k = true := by
        by_contra hc
        simp at hc
        exact absurd hqk ((dictHasKey_false_iff d k).mp hc q hq)
      simp [dictGet, h, hv, hkey]
  | none =>
      have hkey := (dictFind_none_iff_hasKey d k).mp h
      simp [dictGet, h, hkey]

/-- The relation after a non-conflicting merge: `self.relation` when set,
otherwise `other.relation`. -/
def mergedRelation : Option Relations → Option Relations → Option Relations
  | some x, _ => some x
  | none, r => r

lemma iadd_conflict {acc other : EnhancedFieldResult} {x y : Relations}
    (h1 : acc.relation = some x) (h2 : other.relation = some y) (hxy : x ≠ y) :
    iadd acc other = Except.error "TypeError: More than one relation requested" := by
  unfold iadd
  rw [h1, h2]
  simp [hxy, bind, Except.bind]

lemma iadd_no_conflict (acc other : EnhancedFieldResult)
    (h : acc.relation = none ∨ other.relation = none ∨
         acc.relation = other.relation) :
    iadd acc other =
      if mergedRelation acc.relation other.relation = some Relations.ONE_TO_MANY ∧
          dictGet (acc.column_arguments ++ other.column_arguments)
            "primary_key" false then
        Except.error
          "TypeError: ONE_TO_MANY relationship cannot be used as a primary key"
      else
        Except.ok { unwrapped_type := other.unwrapped_type,
                    table_constraints :=
                      acc.table_constraints ++ other.table_constraints,
                    column_arguments :=
                      acc.column_arguments ++ other.column_arguments,
                    relation := mergedRelation acc.relation other.relation } := by
  unfold iadd
  rcases h1 : acc.relation with _ | x <;> rcases h2 : other.relation with _ | y
  · simp [mergedRelation, bind, Except.bind, pure, Except.pure]
  · simp [mergedRelation, bind, Except.bind, pure, Except.pure]
  · simp [mergedRelation, bind, Except.bind, pure, Except.pure]
  · have hxy : x = y := by
      rcases h with h | h | h
      · rw [h1] at h; exact Option.noConfusion h
      · rw [h2] at h; exact Option.noConfusion h
      · rw [h1, h2] at h; exact Option.some.inj h
    subst hxy
    simp [mergedRelation, bind, Except.bind, pure, Except.pure]

/-- `dict.update` semantics for the `primary_key` flag when the updating
dict binds the key only to `true`. -/
lemma dictGet_append_positive {A args : List (String × Bool)} {k : String}
    (hpos : ∀ p ∈ args, p.1 = k → p.2 = true) :
    dictGet (A ++ args) k false = (dictGet A k false || dictGet args k false) := by
  unfold dictGet
  rw [dictFind_append]
  cases h : dictFind args k with
  | some v =>
      have hkey : dictHasKey args k = true := by
        by_contra hc
        simp at hc
        rw [(dictFind_none_iff_hasKey args k).mpr hc] at h
        exact Option.noConfusion h
      have hv : v = true := by
        have := dictGet_of_positive hpos
        unfold dictGet at this
        rw [h] at this
        simpa [hkey] using this
      simp [hv, h]
  | none =>
      have hkey := (dictFind_none_iff_hasKey args k).mp h
      have hz : (dictFind args k).getD false = false := by
        have := dictGet_of_positive hpos
        unfold dictGet at this
        rw [this, hkey]
      rw [h] at hz
      simp at hz
      simp [h]

lemma hasPrimaryKeyMod_wrapped (rel : Option Relations) (tc : List String)
    (args : List (String × Bool)) (inner : FieldType) :
    hasPrimaryKeyMod (FieldType.wrapped rel tc args inner)
      = (dictGet args "primary_key" false || hasPrimaryKeyMod inner) := by
  simp [hasPrimaryKeyMod, chainMods]

lemma allRels_wrapped (rel : Option Relations) (tc : List String)
    (args : List (String × Bool)) (inner : FieldType) :
    allRels (FieldType.wrapped rel tc args inner) = rel.toList ++ allRels inner := by
  simp [allRels, explicitRels_wrapped, inferredRel, coreType, List.append_assoc]

lemma mem_mergedRelation_iff {k : Relations} {a b : Option Relations}
    (h : a = none ∨ b = none ∨ a = b) :
    k ∈ (mergedRelation a b).toList ↔ (k ∈ a.toList ∨ k ∈ b.toList) := by
  rcases a with _ | x
  · simp [mergedRelation]
  · rcases b with _ | y
    · simp [mergedRelation]
    · have hxy : x = y := by
        rcases h with h | h | h
        · exact Option.noConfusion h
        · exact Option.noConfusion h
        · exact Option.some.inj h
      subst hxy
      simp [mergedRelation]

lemma parseLoop_error_iff :
    ∀ (ft : FieldType) (acc : EnhancedFieldResult),
      pkPositive ft →
      ((∃ e, parseLoop ft acc = Except.error e) ↔
        ((Relations.ONE_TO_MANY ∈ acc.relation.toList ++ allRels ft ∧
          Relations.MANY_TO_ONE ∈ acc.relation.toList ++ allRels ft) ∨
         ((dictGet acc.column_arguments "primary_key" false = true ∨
             hasPrimaryKeyMod ft = true) ∧
          Relations.ONE_TO_MANY ∈ acc.relation.toList ++ allRels ft))) := by
  intro ft
  induction ft with
  | scalar s =>
      intro acc _
      rw [show parseLoop (FieldType.scalar s) acc
            = iadd acc (relationResult (FieldType.scalar s)) from rfl,
          iadd_no_conflict _ _ (Or.inr (Or.inl rfl))]
      rcases hr : acc.relation with _ | x
      · simp [relationResult, mergedRelation, allRels, explicitRels, chainMods,
              inferredRel, coreType, hasPrimaryKeyMod, hr]
      · by_cases hp0 : dictGet acc.column_arguments "primary_key" false = true <;>
          cases x <;>
          simp [relationResult, mergedRelation, allRels, explicitRels, chainMods,
                inferredRel, coreType, hasPrimaryKeyMod, hr, hp0]
  | list elem ih =>
      intro acc _
      rw [show parseLoop (FieldType.list elem) acc
            = iadd acc (relationResult (FieldType.list elem)) from rfl]
      rcases hr : acc.relation with _ | x
      · rw [iadd_no_conflict _ _ (Or.inl hr)]
        by_cases hp0 : dictGet acc.column_arguments "primary_key" false = true <;>
          simp [relationResult, mergedRelation, allRels, explicitRels, chainMods,
                inferredRel, coreType, hasPrimaryKeyMod, hr, hp0]
      · cases x with
        | ONE_TO_MANY =>
            rw [iadd_no_conflict _ _ (Or.inr (Or.inr (by rw [hr]; rfl)))]
            by_cases hp0 : dictGet acc.column_arguments "primary_key" false = true <;>
              simp [relationResult, mergedRelation, allRels, explicitRels,
                    chainMods, inferredRel, coreType, hasPrimaryKeyMod, hr, hp0]
        | MANY_TO_ONE =>
            rw [iadd_conflict hr (show (relationResult (FieldType.list elem)).relation
                  = some Relations.ONE_TO_MANY from rfl) (by simp)]
            simp [allRels, explicitRels, chainMods, inferredRel, coreType, hr]
  | model m =>
      intro acc _
      rw [show parseLoop (FieldType.model m) acc
            = iadd acc (relationResult (FieldType.model m)) from rfl]
      rcases hr : acc.relation with _ | x
      · rw [iadd_no_conflict _ _ (Or.inl hr)]
        simp [relationResult, mergedRelation, allRels, explicitRels, chainMods,
              inferredRel, coreType, hasPrimaryKeyMod, hr]
      · cases x with
        | ONE_TO_MANY =>
            rw [iadd_conflict hr (show (relationResult (FieldType.model m)).relation
                  = some Relations.MANY_TO_ONE from rfl) (by simp)]
            by_cases hp0 : dictGet acc.column_arguments "primary_key" false = true <;>
              simp [allRels, explicitRels, chainMods, inferredRel, coreType,
                    hr, hp0]
        | MANY_TO_ONE =>
            rw [iadd_no_conflict _ _ (Or.inr (Or.inr (by rw [hr]; rfl)))]
            simp [relationResult, mergedRelation, allRels, explicitRels,
                  chainMods, inferredRel, coreType, hasPrimaryKeyMod, hr]
  | wrapped rel tc args inner ih =>
      intro acc hpk
      have hargs_pos : ∀ p ∈ args, p.1 = "primary_key" → p.2 = true :=
        fun p hp hk =>
          hpk (rel, args) (by simp [chainMods]) p hp hk
      have hpk_inner : pkPositive inner :=
        fun m hm p hp hk =>
          hpk m (by simp [chainMods]; exact Or.inr hm) p hp hk
      rw [show parseLoop (FieldType.wrapped rel tc args inner) acc
            = (iadd acc (buildResult rel tc args inner) >>= parseLoop inner)
          from rfl]
      by_cases hconf : ∃ x y, acc.relation = some x ∧ rel = some y ∧ x ≠ y
      · obtain ⟨x, y, h1, h2, hxy⟩ := hconf
        rw [iadd_conflict h1
              (show (buildResult rel tc args inner).relation = some y from by
                rw [show (buildResult rel tc args inner).relation = rel from rfl, h2])
              hxy]
        refine iff_of_true ⟨_, rfl⟩ (Or.inl ?_)
        rw [allRels_wrapped, h1, h2]
        cases x <;> cases y <;> simp_all
      · push_neg at hconf
        have hdisj : acc.relation = none ∨
            (buildResult rel tc args inner).relation = none ∨
            acc.relation = (buildResult rel tc args inner).relation := by
          rcases h1 : acc.relation with _ | x
          · exact Or.inl rfl
          · cases h2 : rel with
            | none => exact Or.inr (Or.inl rfl)
            | some y =>
                exact Or.inr (Or.inr (congrArg some (hconf x y h1 h2)))
        rw [iadd_no_conflict _ _ hdisj]
        have hmerge : dictGet (acc.column_arguments
              ++ (buildResult rel tc args inner).column_arguments)
              "primary_key" false
            = (dictGet acc.column_arguments "primary_key" false
                || dictGet args "primary_key" false) :=
          dictGet_append_positive hargs_pos
        have hdisj' : acc.relation = none ∨ rel = none ∨ acc.relation = rel := hdisj
        have htrans : ∀ k : Relations,
            k ∈ (mergedRelation acc.relation rel).toList ++ allRels inner ↔
              k ∈ acc.relation.toList
                ++ allRels (FieldType.wrapped rel tc args inner) := by
          intro k
          rw [allRels_wrapped]
          constructor
          · intro h
            rcases List.mem_append.mp h with hm | hm
            · rcases (mem_mergedRelation_iff hdisj').mp hm with h' | h'
              · exact List.mem_append.mpr (Or.inl h')
              · exact List.mem_append.mpr
                  (Or.inr (List.mem_append.mpr (Or.inl h')))
            · exact List.mem_append.mpr
                (Or.inr (List.mem_append.mpr (Or.inr hm)))
          · intro h
            rcases List.mem_append.mp h with hm | hm
            · exact List.mem_append.mpr
                (Or.inl ((mem_mergedRelation_iff hdisj').mpr (Or.inl hm)))
            · rcases List.mem_append.mp hm with h' | h'
              · exact List.mem_append.mpr
                  (Or.inl ((mem_mergedRelation_iff hdisj').mpr (Or.inr h')))
              · exact List.mem_append.mpr (Or.inr h')
        have hpkiff : (dictGet (acc.column_arguments
                ++ (buildResult rel tc args inner).column_arguments)
                "primary_key" false = true ∨
              hasPrimaryKeyMod inner = true) ↔
            (dictGet acc.column_arguments "primary_key" false = true ∨
              hasPrimaryKeyMod (FieldType.wrapped rel tc args inner) = true) := by
          rw [hmerge, hasPrimaryKeyMod_wrapped]
          constructor
          · rintro (hp | hp)
            · rcases Bool.or_eq_true_iff.mp hp with h | h
              · exact Or.inl h
              · exact Or.inr (by rw [h]; simp)
            · exact Or.inr (by rw [hp]; simp)
          · rintro (hp | hp)
            · exact Or.inl (by rw [hp]; simp)
            · rcases Bool.or_eq_true_iff.mp hp with h | h
              · exact Or.inl (by rw [h]; simp)
              · exact Or.inr h
        by_cases hc : mergedRelation acc.relation
              (buildResult rel tc args inner).relation
              = some Relations.ONE_TO_MANY ∧
            dictGet (acc.column_arguments
              ++ (buildResult rel tc args inner).column_arguments)
              "primary_key" false
        · rw [if_pos hc]
          refine iff_of_true ⟨_, rfl⟩ (Or.inr ⟨?_, ?_⟩)
          · exact hpkiff.mp (Or.inl hc.2)
          · refine (htrans Relations.ONE_TO_MANY).mp ?_
            refine List.mem_append.mpr (Or.inl ?_)
            rw [show mergedRelation acc.relation rel
                  = mergedRelation acc.relation
                    (buildResult rel tc args inner).relation from rfl, hc.1]
            simp
        · rw [if_neg hc]
          rw [show (Except.ok
                { unwrapped_type := (buildResult rel tc args inner).unwrapped_type,
                  table_constraints := acc.table_constraints
                    ++ (buildResult rel tc args inner).table_constraints,
                  column_arguments := acc.column_arguments
                    ++ (buildResult rel tc args inner).column_arguments,
                  relation := mergedRelation acc.relation
                    (buildResult rel tc args inner).relation }
                >>= parseLoop inner)
              = parseLoop inner
                { unwrapped_type := (buildResult rel tc args inner).unwrapped_type,
                  table_constraints := acc.table_constraints
                    ++ (buildResult rel tc args inner).table_constraints,
                  column_arguments := acc.column_arguments
                    ++ (buildResult rel tc args inner).column_arguments,
                  relation := mergedRelation acc.relation
                    (buildResult rel tc args inner).relation } from rfl]
          rw [ih _ hpk_inner]
          constructor
          · rintro (⟨hm1, hm2⟩ | ⟨hp, hm1⟩)
            · exact Or.inl ⟨(htrans _).mp hm1, (htrans _).mp hm2⟩
            · exact Or.inr ⟨hpkiff.mp hp, (htrans _).mp hm1⟩
          · rintro (⟨hm1, hm2⟩ | ⟨hp, hm1⟩)
            · exact Or.inl ⟨(htrans _).mpr hm1, (htrans _).mpr hm2⟩
            · exact Or.inr ⟨hpkiff.mpr hp, (htrans _).mpr hm1⟩

/-- A declared type falsifying the claim that resolution fails *only* on two
distinct explicit modifier relation kinds, or on a primary-key modifier over a
ONE_TO_MANY-implying type: one single modifier asserting MANY_TO_ONE wrapped
around `List[int]`. -/
def c2CounterType : FieldType :=
  FieldType.wrapped (some Relations.MANY_TO_ONE) [] []
    (FieldType.list (FieldType.scalar "int"))

/-- C2 counterexample: a chain with a single explicit MANY_TO_ONE-asserting
modifier over a collection type has neither two distinct explicit relation
kinds nor a primary-key modifier, yet resolution fails (the explicit
MANY_TO_ONE conflicts with the inferred ONE_TO_MANY at the final merge). -/
theorem parse_conflict_claim_counterexample :
    twoDistinctExplicitRels c2CounterType = false ∧
    pkWithOneToManyType c2CounterType = false ∧
    resolutionFails c2CounterType = true := by
  refine ⟨rfl, rfl, rfl⟩

/-- C2 (amended): for any chain whose modifiers never bind `primary_key` to
`False`, resolution fails exactly when the relation assertions — the chain's
explicit ones together with the kind inferred from the remaining raw type —
contain two distinct kinds, or when a primary-key modifier occurs and those
assertions contain ONE_TO_MANY; every chain free of both conflicts resolves
successfully. -/
theorem parse_fails_iff_relation_conflict (ft : FieldType)
    (hpk : pkPositive ft) :
    resolutionFails ft = true ↔
      ((Relations.ONE_TO_MANY ∈ allRels ft ∧
        Relations.MANY_TO_ONE ∈ allRels ft) ∨
       (hasPrimaryKeyMod ft = true ∧ Relations.ONE_TO_MANY ∈ allRels ft)) := by
  have h := parseLoop_error_iff ft { unwrapped_type := ft } hpk
  have hsimp : ∀ k : Relations,
      (k ∈ ({ unwrapped_type := ft
             : EnhancedFieldResult }).relation.toList ++ allRels ft)
        ↔ k ∈ allRels ft := by
    intro k
    show k ∈ (none : Option Relations).toList ++ allRels ft ↔ _
    simp
  have hget : dictGet ({ unwrapped_type := ft
        : EnhancedFieldResult }).column_arguments "primary_key" false = false := rfl
  constructor
  · intro hfail
    have hex : ∃ e, parseLoop ft { unwrapped_type := ft } = Except.error e := by
      unfold resolutionFails parse at hfail
      cases h2 : parseLoop ft { unwrapped_type := ft } with
      | ok v => rw [h2] at hfail; exact Bool.noConfusion hfail
      | error e => exact ⟨e, rfl⟩
    rcases h.mp hex with ⟨hm1, hm2⟩ | ⟨hp, hm⟩
    · exact Or.inl ⟨(hsimp _).mp hm1, (hsimp _).mp hm2⟩
    · rcases hp with hp | hp
      · rw [hget] at hp; exact Bool.noConfusion hp
      · exact Or.inr ⟨hp, (hsimp _).mp hm⟩
  · intro hcond
    have hex : ∃ e, parseLoop ft { unwrapped_type := ft } = Except.error e := by
      refine h.mpr ?_
      rcases hcond with ⟨hm1, hm2⟩ | ⟨hp, hm⟩
      · exact Or.inl ⟨(hsimp _).mpr hm1, (hsimp _).mpr hm2⟩
      · exact Or.inr ⟨Or.inr hp, (hsimp _).mpr hm⟩
    obtain ⟨e, he⟩ := hex
    unfold resolutionFails parse
    rw [he]

/-- Witness for the amended C2 at `PrimaryKey(List[int])`: a primary-key
modifier over a collection type, which must fail to resolve. -/
theorem parse_fails_iff_relation_conflict_witness :
    resolutionFails
      (FieldType.wrapped none [] [("primary_key", true)]
        (FieldType.list (FieldType.scalar "int"))) = true :=
  (parse_fails_iff_relation_conflict
      (FieldType.wrapped none [] [("primary_key", true)]
        (FieldType.list (FieldType.scalar "int")))
      (by intro m hm p hp hk
          simp [chainMods] at hm
          subst hm
          simp at hp
          rw [hp])).mpr (by decide)

/-! ## `rubedo/model.py` — back-reference registration during compilation

`rubedo_model._wrap` (model.py lines 85-136), restricted to the
back-reference bookkeeping the claims are about.  A "world" maps each compiled
model's name to its two back-reference dicts (`__backrefmodels__`, singular
valued, and `__backrefmodels_uselist__`, collection valued).  Compiling a
model parses each field and, when the unwrapped type is a compiled model,
registers the implicit back-reference on the *target* model's dicts and
records the model's own back-reference maps.
-/

structure ModelMaps where
  /-- `__backrefmodels__`: key → field name / field name → plural name -/
  backref : List (String × String) := []
  /-- `__backrefmodels_uselist__` -/
  backref_uselist : List (String × String) := []
deriving DecidableEq, Repr

/-- The registry of compiled models' back-reference dicts. -/
abbrev World : Type := List (String × ModelMaps)

def worldGet (w : World) (m : String) : ModelMaps :=
  dictGet w m {}

def worldSet (w : World) (m : String) (maps : ModelMaps) : World :=
  w ++ [(m, maps)]

/-- One iteration of the field loop of `_wrap` (model.py lines 85-113),
restricted to back-reference registration.  `issubclass(field_type,
ModelBase)` holds exactly for compiled models; calling it on a generic alias
or an `EnhancedFieldBase` instance raises `TypeError`.  The running model's
own `backrefs` / `backrefs_uselist` dicts are the second component. -/
def wrapStep (singularname pluralname : String)
    (st : World × ModelMaps) (f : String × FieldType) :
    Except String (World × ModelMaps) := do
  let efr ← parse f.2
  match efr.unwrapped_type with
  | FieldType.model target =>
      match efr.relation with
      | some Relations.ONE_TO_MANY =>
          let maps := worldGet st.1 target
          pure (worldSet st.1 target
                  { maps with backref := maps.backref ++ [(singularname, f.1)] },
                { st.2 with backref_uselist :=
                    st.2.backref_uselist ++ [(f.1, singularname)] })
      | some Relations.MANY_TO_ONE =>
          let maps := worldGet st.1 target
          pure (worldSet st.1 target
                  { maps with backref_uselist :=
                      maps.backref_uselist ++ [(pluralname, f.1)] },
                { st.2 with backref := st.2.backref ++ [(f.1, pluralname)] })
      | none => pure st
  | FieldType.scalar _ => pure st
  | FieldType.list _ =>
      Except.error "TypeError: issubclass() arg 1 must be a class"
  | FieldType.wrapped _ _ _ _ =>
      Except.error "TypeError: issubclass() arg 1 must be a class"

/-- The back-reference effect of compiling one model: run the field loop,
then install the new model's own dicts in the registry
(model.py lines 135-136; the freshly created class starts with empty dicts). -/
def wrapModelBackrefs (clsName singularname pluralname : String)
    (fields : List (String × FieldType)) (w : World) : Except String World := do
  let (w1, own) ← fields.foldlM (wrapStep singularname pluralname) (w, {})
  pure (worldSet w1 clsName own)

lemma dictHasKey_append {α : Type} (A B : List (String × α)) (k : String) :
    dictHasKey (A ++ B) k = (dictHasKey A k || dictHasKey B k) := by
  simp [dictHasKey, List.any_append]

lemma worldGet_set_self (w : World) (m : String) (maps : ModelMaps) :
    worldGet (worldSet w m maps) m = maps := by
  unfold worldGet worldSet dictGet
  rw [dictFind_append]
  simp [dictFind]

lemma worldGet_set_other (w : World) (m m' : String) (maps : ModelMaps)
    (h : m' ≠ m) :
    worldGet (worldSet w m maps) m' = worldGet w m' := by
  unfold worldGet worldSet dictGet
  rw [dictFind_append]
  simp only [dictFind]
  rw [if_neg (fun he : m = m' => h he.symm)]

/-- A single `wrapStep` never removes a key from any model's
back-reference dicts. -/
lemma wrapStep_mono (singularname pluralname : String)
    (st st' : World × ModelMaps) (f : String × FieldType)
    (hstep : wrapStep singularname pluralname st f = Except.ok st')
    (B k : String) :
    (dictHasKey (worldGet st.1 B).backref k = true →
       dictHasKey (worldGet st'.1 B).backref k = true) ∧
    (dictHasKey (worldGet st.1 B).backref_uselist k = true →
       dictHasKey (worldGet st'.1 B).backref_uselist k = true) := by
  unfold wrapStep at hstep
  cases hp : parse f.2 with
  | error e => rw [hp] at hstep; exact Except.noConfusion hstep
  | ok efr =>
      rw [hp] at hstep
      simp only [bind, Except.bind] at hstep
      cases hu : efr.unwrapped_type with
      | model target =>
          rw [hu] at hstep
          cases hr : efr.relation with
          | none =>
              rw [hr] at hstep
              simp only [pure, Except.pure, Except.ok.injEq] at hstep
              rw [← hstep]
              exact ⟨id, id⟩
          | some rk =>
              rw [hr] at hstep
              cases rk <;>
                simp only [pure, Except.pure, Except.ok.injEq] at hstep <;>
                rw [← hstep] <;>
                constructor <;>
                intro hin <;>
                by_cases hB : B = target <;>
                  first
                  | (subst hB
                     rw [worldGet_set_self]
                     simp [dictHasKey_append]
                     first
                       | exact Or.inl (by simpa [dictHasKey] using hin)
                       | simpa [dictHasKey] using hin)
                  | (rw [worldGet_set_other _ _ _ _ hB]; exact hin)
      | scalar s =>
          rw [hu] at hstep
          simp only [pure, Except.pure, Except.ok.injEq] at hstep
          rw [← hstep]
          exact ⟨id, id⟩
      | list elem =>
          rw [hu] at hstep
          exact Except.noConfusion hstep
      | wrapped r tc args inner =>
          rw [hu] at hstep
          exact Except.noConfusion hstep

/-- The whole field loop preserves key presence. -/
lemma wrapLoop_mono (singularname pluralname : String) :
    ∀ (fields : List (String × FieldType)) (st st' : World × ModelMaps),
      fields.foldlM (wrapStep singularname pluralname) st = Except.ok st' →
      ∀ (B k : String),
        (dictHasKey (worldGet st.1 B).backref k = true →
           dictHasKey (worldGet st'.1 B).backref k = true) ∧
        (dictHasKey (worldGet st.1 B).backref_uselist k = true →
           dictHasKey (worldGet st'.1 B).backref_uselist k = true) := by
  intro fields
  induction fields with
  | nil =>
      intro st st' hrun B k
      have hst : st = st' := by
        simpa [List.foldlM, pure, Except.pure] using hrun
      rw [← hst]
      exact ⟨id, id⟩
  | cons f fields ih =>
      intro st st' hrun B k
      rw [show (f :: fields).foldlM (wrapStep singularname pluralname) st
            = (wrapStep singularname pluralname st f >>=
                fun st1 => fields.foldlM (wrapStep singularname pluralname) st1)
          from rfl] at hrun
      cases hstep : wrapStep singularname pluralname st f with
      | error e =>
          rw [hstep] at hrun
          exact Except.noConfusion hrun
      | ok st1 =>
          rw [hstep] at hrun
          have hmono1 := wrapStep_mono _ _ _ _ _ hstep B k
          have hmono2 := ih st1 st' hrun B k
          exact ⟨fun h => hmono2.1 (hmono1.1 h), fun h => hmono2.2 (hmono1.2 h)⟩

lemma wrapLoop_registers (singularname pluralname : String)
    (fname : String) (ft : FieldType) (efr : EnhancedFieldResult) (B : String)
    (hparse : parse ft = Except.ok efr) :
    ∀ (fields : List (String × FieldType)) (st st' : World × ModelMaps),
      fields.foldlM (wrapStep singularname pluralname) st = Except.ok st' →
      (fname, ft) ∈ fields →
      (efr.unwrapped_type = FieldType.model B ∧
          efr.relation = some Relations.MANY_TO_ONE →
        dictHasKey (worldGet st'.1 B).backref_uselist pluralname = true) ∧
      (efr.unwrapped_type = FieldType.model B ∧
          efr.relation = some Relations.ONE_TO_MANY →
        dictHasKey (worldGet st'.1 B).backref singularname = true) := by
  intro fields
  induction fields with
  | nil =>
      intro st st' _ hmem
      exact absurd hmem (List.not_mem_nil _)
  | cons f fields ih =>
      intro st st' hrun hmem
      rw [show (f :: fields).foldlM (wrapStep singularname pluralname) st
            = (wrapStep singularname pluralname st f >>=
                fun st1 => fields.foldlM (wrapStep singularname pluralname) st1)
          from rfl] at hrun
      cases hstep : wrapStep singularname pluralname st f with
      | error e =>
          rw [hstep] at hrun
          exact Except.noConfusion hrun
      | ok st1 =>
          rw [hstep] at hrun
          rcases List.mem_cons.mp hmem with rfl | hmem2
          · constructor
            · rintro ⟨hu, hr⟩
              have hkey : dictHasKey (worldGet st1.1 B).backref_uselist
                  pluralname = true := by
                unfold wrapStep at hstep
                rw [hparse] at hstep
                simp only [bind, Except.bind, hu, hr] at hstep
                simp only [pure, Except.pure, Except.ok.injEq] at hstep
                rw [← hstep]
                rw [worldGet_set_self]
                simp [dictHasKey_append, dictHasKey]
              exact (wrapLoop_mono _ _ _ _ _ hrun B pluralname).2 hkey
            · rintro ⟨hu, hr⟩
              have hkey : dictHasKey (worldGet st1.1 B).backref
                  singularname = true := by
                unfold wrapStep at hstep
                rw [hparse] at hstep
                simp only [bind, Except.bind, hu, hr] at hstep
                simp only [pure, Except.pure, Except.ok.injEq] at hstep
                rw [← hstep]
                rw [worldGet_set_self]
                simp [dictHasKey_append, dictHasKey]
              exact (wrapLoop_mono _ _ _ _ _ hrun B singularname).1 hkey
          · exact ih st1 st' hrun hmem2

/-- C5: compiling model A registers, for every MANY_TO_ONE field targeting a
compiled model B, a collection-valued back-reference on B keyed by A's plural
name, and for every ONE_TO_MANY field targeting B, a singular-valued
back-reference on B keyed by A's singular name. -/
theorem compile_registers_backrefs
    (clsName singularname pluralname : String)
    (fields : List (String × FieldType)) (w w' : World)
    (fname : String) (ft : FieldType) (efr : EnhancedFieldResult) (B : String)
    (hmem : (fname, ft) ∈ fields)
    (hparse : parse ft = Except.ok efr)
    (hwrap : wrapModelBackrefs clsName singularname pluralname fields w
      = Except.ok w')
    (hB : B ≠ clsName) :
    (efr.unwrapped_type = FieldType.model B ∧
        efr.relation = some Relations.MANY_TO_ONE →
      dictHasKey (worldGet w' B).backref_uselist pluralname = true) ∧
    (efr.unwrapped_type = FieldType.model B ∧
        efr.relation = some Relations.ONE_TO_MANY →
      dictHasKey (worldGet w' B).backref singularname = true) := by
  unfold wrapModelBackrefs at hwrap
  cases hloop : fields.foldlM (wrapStep singularname pluralname) (w, {}) with
  | error e =>
      rw [hloop] at hwrap
      exact Except.noConfusion hwrap
  | ok st' =>
      rw [hloop] at hwrap
      simp only [bind, Except.bind, pure, Except.pure, Except.ok.injEq] at hwrap
      have hget : worldGet w' B = worldGet st'.1 B := by
        rw [← hwrap]
        exact worldGet_set_other _ _ _ _ hB
      rw [hget]
      exact wrapLoop_registers singularname pluralname fname ft efr B hparse
        fields _ st' hloop hmem

/-- Witness for C5: a model with a MANY_TO_ONE field `owner : B` and a
ONE_TO_MANY field `items : List[B]`; both registrations appear on B. -/
theorem compile_registers_backrefs_witness :
    dictHasKey
      (worldGet
        ([("B", { backref := [], backref_uselist := [] })]
          ++ [("B", { backref := [],
                      backref_uselist := [("things", "owner")] })]
          ++ [("B", { backref := [("thing", "items")],
                      backref_uselist := [("things", "owner")] })]
          ++ [("thing_mod_things",
               { backref := [("owner", "things")],
                 backref_uselist := [("items", "thing")] })]) "B").backref_uselist
      "things" = true :=
  (compile_registers_backrefs "thing_mod_things" "thing" "things"
      [("owner", FieldType.model "B"), ("items", FieldType.list (FieldType.model "B"))]
      [("B", { backref := [], backref_uselist := [] })]
      ([("B", { backref := [], backref_uselist := [] })]
        ++ [("B", { backref := [],
                    backref_uselist := [("things", "owner")] })]
        ++ [("B", { backref := [("thing", "items")],
                    backref_uselist := [("things", "owner")] })]
        ++ [("thing_mod_things",
             { backref := [("owner", "things")],
               backref_uselist := [("items", "thing")] })])
      "owner" (FieldType.model "B")
      { unwrapped_type := FieldType.model "B",
        relation := some Relations.MANY_TO_ONE } "B"
      (by simp) (by rfl) (by rfl) (by decide)).1 ⟨rfl, rfl⟩

/-! ## `rubedo/model_base.py` — `ModelBase.__getattr__`

Lazy back-reference defaults (model_base.py lines 37-56).  Python calls
`__getattr__` only after normal attribute lookup fails; the instance dict is
the attrs association list.  A successful default is cached with
`super().__setattr__`, which bypasses the auto-backref `__setattr__`.
-/

inductive PyValue where
  | vnone
  | vstr (s : String)
  /-- a list of model instances, carried by their pk attributes -/
  | vlist (elems : List (Option Nat))
deriving DecidableEq, Repr

structure PyInstance where
  attrs : List (String × PyValue) := []
deriving DecidableEq, Repr

/-- `super().__setattr__(key, value)`. -/
def objSetattrRaw (o : PyInstance) (k : String) (v : PyValue) : PyInstance :=
  { attrs := o.attrs ++ [(k, v)] }

/-- Attribute access on a model instance: normal lookup in the instance dict,
then `ModelBase.__getattr__` (model_base.py lines 37-56).  `backref` and
`backrefUselist` are the class's `__backrefmodels__` /
`__backrefmodels_uselist__` dicts.  `__getattr__`'s initial
`item in self.__dict__` re-check is subsumed by the normal lookup. -/
def modelGetattr (backref backrefUselist : List (String × String))
    (o : PyInstance) (item : String) : Except String (PyValue × PyInstance) :=
  match dictFind o.attrs item with
  | some v => Except.ok (v, o)
  | none =>
      if dictHasKey backref item then
        Except.ok (PyValue.vnone, objSetattrRaw o item PyValue.vnone)
      else if dictHasKey backrefUselist item then
        Except.ok (PyValue.vlist [], objSetattrRaw o item (PyValue.vlist []))
      else
        Except.error "AttributeError"

/-- C6: on first access of an attribute not yet in the instance dict, a
singular back-reference name yields `None`, a collection back-reference name
yields a fresh empty list, and both are cached so that a second access
returns the same value without change; a name that is neither stored nor a
back-reference raises `AttributeError`. -/
theorem modelbase_getattr_defaults
    (backref backrefUselist : List (String × String))
    (o : PyInstance) (item : String)
    (hmiss : dictFind o.attrs item = none) :
    (dictHasKey backref item = true →
        modelGetattr backref backrefUselist o item
          = Except.ok (PyValue.vnone, objSetattrRaw o item PyValue.vnone)) ∧
    (dictHasKey backref item = false → dictHasKey backrefUselist item = true →
        modelGetattr backref backrefUselist o item
          = Except.ok (PyValue.vlist [],
              objSetattrRaw o item (PyValue.vlist []))) ∧
    (dictHasKey backref item = false → dictHasKey backrefUselist item = false →
        modelGetattr backref backrefUselist o item
          = Except.error "AttributeError") ∧
    (∀ (v : PyValue) (o' : PyInstance),
        modelGetattr backref backrefUselist o item = Except.ok (v, o') →
        modelGetattr backref backrefUselist o' item = Except.ok (v, o')) := by
  refine ⟨?_, ?_, ?_, ?_⟩
  · intro h1
    unfold modelGetattr
    rw [hmiss, if_pos h1]
  · intro h1 h2
    unfold modelGetattr
    rw [hmiss, if_neg (by simp [h1]), if_pos h2]
  · intro h1 h2
    unfold modelGetattr
    rw [hmiss, if_neg (by simp [h1]), if_neg (by simp [h2])]
  · intro v o' hfirst
    unfold modelGetattr at hfirst ⊢
    rw [hmiss] at hfirst
    by_cases h1 : dictHasKey backref item = true
    · rw [if_pos h1] at hfirst
      obtain ⟨hv, ho⟩ : PyValue.vnone = v ∧ objSetattrRaw o item PyValue.vnone = o' := by
        constructor <;> [exact congrArg Prod.fst (Except.ok.inj hfirst);
                        exact congrArg Prod.snd (Except.ok.inj hfirst)]
      subst hv; subst ho
      have hcached : dictFind (objSetattrRaw o item PyValue.vnone).attrs item
          = some PyValue.vnone := by
        unfold objSetattrRaw
        rw [dictFind_append]
        simp [dictFind]
      rw [hcached]
    · rw [if_neg h1] at hfirst
      by_cases h2 : dictHasKey backrefUselist item = true
      · rw [if_pos h2] at hfirst
        obtain ⟨hv, ho⟩ : PyValue.vlist [] = v ∧
            objSetattrRaw o item (PyValue.vlist []) = o' := by
          constructor <;> [exact congrArg Prod.fst (Except.ok.inj hfirst);
                          exact congrArg Prod.snd (Except.ok.inj hfirst)]
        subst hv; subst ho
        have hcached : dictFind
            (objSetattrRaw o item (PyValue.vlist [])).attrs item
            = some (PyValue.vlist []) := by
          unfold objSetattrRaw
          rw [dictFind_append]
          simp [dictFind]
        rw [hcached]
      · rw [if_neg h2] at hfirst
        exact Except.noConfusion hfirst

/-- Witness for C6 on a fresh instance of a model with one singular and one
collection back-reference. -/
theorem modelbase_getattr_defaults_witness :
    modelGetattr [("kitchen", "shelves")] [("houses", "house")]
        { attrs := [] } "houses"
      = Except.ok (PyValue.vlist [],
          objSetattrRaw { attrs := [] } "houses" (PyValue.vlist [])) :=
  (modelbase_getattr_defaults [("kitchen", "shelves")] [("houses", "house")]
      { attrs := [] } "houses" rfl).2.1 rfl rfl

/-! ## `rubedo/memory_backend.py` — repository add / remove

`MemoryRepositoryBase.add` (lines 143-150) and `.remove` (lines 152-157).
A model's table (`type(self)._items`) is a list whose entries are instances
or `None` (left by `remove` so pks don't change).  An instance carries its
`pk` attribute and its field values.
-/

/-- A field value of a model instance, as the memory backend sees it:
`None`, a string, a list of strings (scalar collection), a reference to
another model instance (carried by that instance's `pk` attribute), or a
list of such references (ONE_TO_MANY collection). -/
inductive FValue where
  | vnone
  | vstr (s : String)
  | vstrs (ss : List String)
  | vref (pk : Option Nat)
  | vrefs (pks : List (Option Nat))
deriving DecidableEq, Repr

structure MObj where
  pk : Option Nat := none
  fields : List (String × FValue) := []
deriving DecidableEq, Repr

/-- `MemoryRepositoryBase.add` (memory_backend.py lines 143-150): a `pk`-less
instance gets the current table length as pk and is appended; an instance
with a pk overwrites the slot at that index (`items[pk] = obj`, which raises
`IndexError` beyond the end).  Returns the table and the (possibly mutated)
instance. -/
def addObj (items : List (Option MObj)) (obj : MObj) :
    Except String (List (Option MObj) × MObj) :=
  match obj.pk with
  | none =>
      let obj' := { obj with pk := some items.length }
      Except.ok (items ++ [some obj'], obj')
  | some pk =>
      if pk < items.length then Except.ok (items.set pk (some obj), obj)
      else Except.error "IndexError: list assignment index out of range"

/-- `MemoryRepositoryBase.remove` (memory_backend.py lines 152-157): `None`
is kept at the instance's index so pks won't change; a `pk`-less instance
was never added and raises `ValueError`. -/
def removeObj (items : List (Option MObj)) (obj : MObj) :
    Except String (List (Option MObj)) :=
  match obj.pk with
  | none => Except.error "ValueError: model was never added to the repository"
  | some pk =>
      if pk < items.length then Except.ok (items.set pk none)
      else Except.error "IndexError: list assignment index out of range"

/-- An add/remove operation against a model's repository. -/
inductive MemOp where
  | add (obj : MObj)
  | remove (obj : MObj)
deriving DecidableEq, Repr

/-- Run one operation; the second state component is the history of every pk
an `add` stored at (bookkeeping for the claims, not part of the code). -/
def execOp (st : List (Option MObj) × List Nat) (op : MemOp) :
    Except String (List (Option MObj) × List Nat) :=
  match op with
  | MemOp.add obj => do
      let r ← addObj st.1 obj
      match r.2.pk with
      | some p => pure (r.1, st.2 ++ [p])
      | none => pure (r.1, st.2)
  | MemOp.remove obj => do
      let items' ← removeObj st.1 obj
      pure (items', st.2)

def runOps (ops : List MemOp) (st : List (Option MObj) × List Nat) :
    Except String (List (Option MObj) × List Nat) :=
  ops.foldlM execOp st

/-- Every pk ever stored by an `add` is below the current table length. -/
def tableInv (st : List (Option MObj) × List Nat) : Prop :=
  ∀ p ∈ st.2, p < st.1.length

lemma addObj_none {items : List (Option MObj)} {obj : MObj}
    (h : obj.pk = none) :
    addObj items obj
      = Except.ok (items ++ [some { obj with pk := some items.length }],
          { obj with pk := some items.length }) := by
  unfold addObj
  rw [h]

lemma addObj_some {items : List (Option MObj)} {obj : MObj} {q : Nat}
    (h : obj.pk = some q) :
    addObj items obj
      = if q < items.length then Except.ok (items.set q (some obj), obj)
        else Except.error "IndexError: list assignment index out of range" := by
  unfold addObj
  rw [h]

lemma removeObj_none {items : List (Option MObj)} {obj : MObj}
    (h : obj.pk = none) :
    removeObj items obj
      = Except.error "ValueError: model was never added to the repository" := by
  unfold removeObj
  rw [h]

lemma removeObj_some {items : List (Option MObj)} {obj : MObj} {q : Nat}
    (h : obj.pk = some q) :
    removeObj items obj
      = if q < items.length then Except.ok (items.set q none)
        else Except.error "IndexError: list assignment index out of range" := by
  unfold removeObj
  rw [h]

lemma execOp_inv {st st' : List (Option MObj) × List Nat} {op : MemOp}
    (hinv : tableInv st) (hrun : execOp st op = Except.ok st') : tableInv st' := by
  cases op with
  | add obj =>
      rw [show execOp st (MemOp.add obj)
            = (addObj st.1 obj >>= fun r =>
                match r.2.pk with
                | some p => pure (r.1, st.2 ++ [p])
                | none => pure (r.1, st.2)) from rfl] at hrun
      cases hadd : addObj st.1 obj with
      | error e => rw [hadd] at hrun; exact Except.noConfusion hrun
      | ok r =>
          rw [hadd] at hrun
          simp only [bind, Except.bind] at hrun
          cases hpk : obj.pk with
          | none =>
              rw [addObj_none hpk] at hadd
              simp only [Except.ok.injEq] at hadd
              rw [← hadd] at hrun
              simp only [pure, Except.pure, Except.ok.injEq] at hrun
              rw [← hrun]
              intro p hp
              simp only [List.length_append, List.length_cons,
                List.length_nil]
              rcases List.mem_append.mp hp with hp | hp
              · exact Nat.lt_succ_of_lt (hinv p hp)
              · simp at hp
                rw [hp]
                exact Nat.lt_succ_self _
          | some q =>
              rw [addObj_some hpk] at hadd
              by_cases hq : q < st.1.length
              · rw [if_pos hq] at hadd
                simp only [Except.ok.injEq] at hadd
                rw [← hadd] at hrun
                simp only [hpk, pure, Except.pure, Except.ok.injEq] at hrun
                rw [← hrun]
                intro p hp
                simp only [List.length_set]
                rcases List.mem_append.mp hp with hp | hp
                · exact hinv p hp
                · simp at hp
                  rw [hp]
                  exact hq
              · rw [if_neg hq] at hadd
                exact Except.noConfusion hadd
  | remove obj =>
      rw [show execOp st (MemOp.remove obj)
            = (removeObj st.1 obj >>= fun items' => pure (items', st.2))
          from rfl] at hrun
      cases hrem : removeObj st.1 obj with
      | error e => rw [hrem] at hrun; exact Except.noConfusion hrun
      | ok items' =>
          rw [hrem] at hrun
          simp only [bind, Except.bind, pure, Except.pure,
            Except.ok.injEq] at hrun
          cases hpk : obj.pk with
          | none => rw [removeObj_none hpk] at hrem; exact Except.noConfusion hrem
          | some q =>
              rw [removeObj_some hpk] at hrem
              by_cases hq : q < st.1.length
              · rw [if_pos hq] at hrem
                simp only [Except.ok.injEq] at hrem
                rw [← hrun]
                intro p hp
                rw [← hrem]
                simp only [List.length_set]
                exact hinv p hp
              · rw [if_neg hq] at hrem
                exact Except.noConfusion hrem

lemma runOps_inv :
    ∀ (ops : List MemOp) (st st' : List (Option MObj) × List Nat),
      tableInv st → runOps ops st = Except.ok st' → tableInv st' := by
  intro ops
  induction ops with
  | nil =>
      intro st st' hinv hrun
      have : st = st' := by
        simpa [runOps, List.foldlM, pure, Except.pure] using hrun
      rw [← this]; exact hinv
  | cons op ops ih =>
      intro st st' hinv hrun
      rw [show runOps (op :: ops) st
            = (execOp st op >>= fun st1 => runOps ops st1) from rfl] at hrun
      cases hstep : execOp st op with
      | error e => rw [hstep] at hrun; exact Except.noConfusion hrun
      | ok st1 =>
          rw [hstep] at hrun
          exact ih st1 st' (execOp_inv hinv hstep) hrun

/-- C7: after any successful sequence of adds and removes from an empty
table, (1) removing an instance leaves every other slot untouched, and
(2) a fresh add performed after a remove receives an identity distinct from
every identity any add ever stored — in particular `y.pk ≠ x.pk` after
`remove(x); add(y)`. -/
theorem memory_identity_stability
    (ops : List MemOp) (st : List (Option MObj) × List Nat)
    (hrun : runOps ops ([], []) = Except.ok st) :
    (∀ (x : MObj) (p : Nat) (items' : List (Option MObj)),
        x.pk = some p →
        removeObj st.1 x = Except.ok items' →
        ∀ q, q ≠ p → items'[q]? = st.1[q]?) ∧
    (∀ (x : MObj) (items' : List (Option MObj)) (y y' : MObj)
        (items'' : List (Option MObj)),
        removeObj st.1 x = Except.ok items' →
        y.pk = none →
        addObj items' y = Except.ok (items'', y') →
        (∀ p ∈ st.2, y'.pk ≠ some p) ∧ y'.pk ≠ x.pk) := by
  have hinv : tableInv st :=
    runOps_inv ops ([], []) st (by intro p hp; exact absurd hp (List.not_mem_nil _))
      hrun
  constructor
  · intro x p items' hxpk hrem q hq
    rw [removeObj_some hxpk] at hrem
    by_cases hp : p < st.1.length
    · rw [if_pos hp] at hrem
      simp only [Except.ok.injEq] at hrem
      rw [← hrem]
      exact List.getElem?_set_ne (fun h => hq h.symm)
    · rw [if_neg hp] at hrem
      exact Except.noConfusion hrem
  · intro x items' y y' items'' hrem hypk hadd
    obtain ⟨p0, hxpk⟩ : ∃ p0, x.pk = some p0 := by
      cases hx : x.pk with
      | none => rw [removeObj_none hx] at hrem; exact Except.noConfusion hrem
      | some p0 => exact ⟨p0, rfl⟩
    rw [removeObj_some hxpk] at hrem
    by_cases hp : p0 < st.1.length
    · rw [if_pos hp] at hrem
      simp only [Except.ok.injEq] at hrem
      have hlen : items'.length = st.1.length := by
        rw [← hrem]; exact List.length_set st.1 p0 none
      rw [addObj_none hypk] at hadd
      simp only [Except.ok.injEq] at hadd
      have hy' : y'.pk = some items'.length := by
        have := congrArg Prod.snd hadd
        simp only at this
        rw [← this]
      constructor
      · intro p hpmem
        rw [hy', hlen]
        intro hcon
        have := Option.some.inj hcon
        exact absurd (hinv p hpmem) (by rw [← this]; exact Nat.lt_irrefl _)
      · rw [hy', hlen, hxpk]
        intro hcon
        have := Option.some.inj hcon
        exact absurd hp (by rw [← this]; exact Nat.lt_irrefl _)
    · rw [if_neg hp] at hrem
      exact Except.noConfusion hrem

/-- Witness for C7: two fresh adds, then `remove(x₀); add(y)` — `y` receives
pk 2, distinct from every previously assigned pk and from `x₀`'s. -/
theorem memory_identity_stability_witness :
    (∀ p ∈ ([0, 1] : List Nat),
        ({ pk := some 2 } : MObj).pk ≠ some p) ∧
    ({ pk := some 2 } : MObj).pk ≠ ({ pk := some 0 } : MObj).pk :=
  (memory_identity_stability [MemOp.add {}, MemOp.add {}]
      ([some { pk := some 0 }, some { pk := some 1 }], [0, 1]) (by rfl)).2
    { pk := some 0 } [none, some { pk := some 1 }] {} { pk := some 2 }
    [none, some { pk := some 1 }, some { pk := some 2 }]
    (by rfl) rfl (by rfl)

lemma set_append_length {α : Type} (l : List α) (a b : α) :
    (l ++ [a]).set l.length b = l ++ [b] := by
  induction l with
  | nil => rfl
  | cons x l ih => simp [List.set, ih]

lemma runOps_fresh_adds :
    ∀ (objs : List MObj) (st0 st : List (Option MObj) × List Nat),
      (∀ o ∈ objs, o.pk = none) →
      runOps (objs.map MemOp.add) st0 = Except.ok st →
      st.2 = st0.2 ++ (List.range objs.length).map (st0.1.length + ·) ∧
      st.1.length = st0.1.length + objs.length := by
  intro objs
  induction objs with
  | nil =>
      intro st0 st _ hrun
      have : st0 = st := by
        simpa [runOps, List.foldlM, pure, Except.pure] using hrun
      rw [← this]
      simp
  | cons o objs ih =>
      intro st0 st hfresh hrun
      rw [show runOps ((o :: objs).map MemOp.add) st0
            = (execOp st0 (MemOp.add o) >>=
                fun st1 => runOps (objs.map MemOp.add) st1) from rfl] at hrun
      have hstep : execOp st0 (MemOp.add o)
          = Except.ok (st0.1 ++ [some { o with pk := some st0.1.length }],
              st0.2 ++ [st0.1.length]) := by
        rw [show execOp st0 (MemOp.add o)
              = (addObj st0.1 o >>= fun r =>
                  match r.2.pk with
                  | some p => pure (r.1, st0.2 ++ [p])
                  | none => pure (r.1, st0.2)) from rfl,
            addObj_none (hfresh o (List.mem_cons_self o objs))]
        rfl
      rw [hstep] at hrun
      have hrun' : runOps (objs.map MemOp.add)
          (st0.1 ++ [some { o with pk := some st0.1.length }],
           st0.2 ++ [st0.1.length]) = Except.ok st := hrun
      obtain ⟨h2, h1⟩ := ih _ st
        (fun q hq => hfresh q (List.mem_cons_of_mem _ hq)) hrun'
      constructor
      · rw [h2]
        simp only [List.length_append, List.length_cons, List.length_nil,
          List.length_map, List.append_assoc]
        congr 1
        rw [show List.range (objs.length + 1)
              = 0 :: (List.range objs.length).map (· + 1)
            from List.range_succ_eq_map objs.length]
        simp [List.map_map, Function.comp]
        intro a _
        omega
      · rw [h1]
        simp only [List.length_append, List.length_cons, List.length_nil,
          List.length_map]
        omega

/-- C10: an add of a pk-less instance assigns the current table length as pk
and appends it — so a run of fresh adds from an empty table assigns
consecutive identities 0, 1, … — while an add of an instance whose pk is set
overwrites the slot at that index, so re-adding the instance returned by a
fresh add leaves the table entirely unchanged (no duplicate entry, same
length). -/
theorem memory_add_overwrite_semantics :
    (∀ (items : List (Option MObj)) (obj : MObj), obj.pk = none →
        addObj items obj
          = Except.ok (items ++ [some { obj with pk := some items.length }],
              { obj with pk := some items.length })) ∧
    (∀ (objs : List MObj), (∀ o ∈ objs, o.pk = none) →
        ∀ st, runOps (objs.map MemOp.add) ([], []) = Except.ok st →
          st.2 = List.range objs.length ∧ st.1.length = objs.length) ∧
    (∀ (items : List (Option MObj)) (obj : MObj)
        (items1 : List (Option MObj)) (obj' : MObj), obj.pk = none →
        addObj items obj = Except.ok (items1, obj') →
        addObj items1 obj' = Except.ok (items1, obj')) := by
  refine ⟨?_, ?_, ?_⟩
  · intro items obj h
    exact addObj_none h
  · intro objs hfresh st hrun
    obtain ⟨h2, h1⟩ := runOps_fresh_adds objs ([], []) st hfresh hrun
    constructor
    · rw [h2]
      simp
    · rw [h1]
      simp
  · intro items obj items1 obj' hpk hadd
    rw [addObj_none hpk] at hadd
    simp only [Except.ok.injEq] at hadd
    have hitems : items1 = items ++ [some { obj with pk := some items.length }] := by
      have := congrArg Prod.fst hadd
      simpa using this.symm
    have hobj : obj' = { obj with pk := some items.length } := by
      have := congrArg Prod.snd hadd
      simpa using this.symm
    rw [hitems, hobj,
        addObj_some (show ({ obj with pk := some items.length } : MObj).pk
          = some items.length from rfl)]
    rw [if_pos (by simp)]
    rw [set_append_length]

/-- Witness for C10: a fresh add to the empty table assigns pk 0; re-adding
the returned instance leaves the table unchanged. -/
theorem memory_add_overwrite_semantics_witness :
    addObj ([some { pk := some 0 }] : List (Option MObj)) { pk := some 0 }
      = Except.ok ([some { pk := some 0 }], { pk := some 0 }) :=
  memory_add_overwrite_semantics.2.2 [] {} [some { pk := some 0 }]
    { pk := some 0 } rfl (by rfl)

/-! ## `rubedo/memory_backend.py` — views

`MemoryView` over a repository table.  A view's `_items` list is built at
construction: without a pk list it snapshots the whole table (including the
`None` holes left by `remove`); with a pk list it indexes the table and keeps
only non-`None` entries.  Instance references inside field values are
carried by the referenced instance's `pk` attribute, so a pk list may contain
`none` (a reference to a never-added instance), which `items[pk]` rejects
with `TypeError`.
-/

/-- One step of `MemoryView.__init__`'s pk loop: `item = repo.get_items()[pk];
if item is not None: self._items.append(item)`. -/
def viewInitStep (repoItems : List (Option MObj))
    (acc : List (Option MObj)) (opk : Option Nat) :
    Except String (List (Option MObj)) :=
  match opk with
  | none => Except.error "TypeError: list indices must be integers"
  | some pk =>
      match repoItems[pk]? with
      | some (some item) => Except.ok (acc ++ [some item])
      | some none => Except.ok acc
      | none => Except.error "IndexError: list index out of range"

/-- `MemoryView.__init__` (memory_backend.py lines 25-35): the `_items` list. -/
def viewInitItems (repoItems : List (Option MObj)) :
    Option (List (Option Nat)) → Except String (List (Option MObj))
  | none => Except.ok repoItems
  | some pks => pks.foldlM (viewInitStep repoItems) []

/-- `getattr(model, "pk")` for one view entry; reading an attribute of a
`None` entry raises. -/
def allPkStep (o : Option MObj) : Except String (Option Nat) :=
  match o with
  | some m => Except.ok m.pk
  | none => Except.error "AttributeError: NoneType has no attribute pk"

/-- `all_pk` — `[getattr(model, "pk") for model in self._items]`. -/
def allPk (items : List (Option MObj)) : Except String (List (Option Nat)) :=
  items.mapM allPkStep

/-- `MemoryView.union` (memory_backend.py lines 71-77).  The loop body calls
`view.axll_pk()`, which is not an attribute of `MemoryView` (the generated
accessor is `all_pk`), so the first iteration over a non-empty argument
raises `AttributeError`; with no argument views the loop is skipped and a new
view is built over this view's own pks. -/
def unionViews (repoItems : List (Option MObj)) (items : List (Option MObj))
    (others : List (List (Option MObj))) :
    Except String (List (Option MObj)) := do
  let pks ← allPk items
  match others with
  | [] => viewInitItems repoItems (some pks)
  | _ :: _ => Except.error "AttributeError: axll_pk"

/-- `MemoryView.count`. -/
def countView (items : List (Option MObj)) : Nat := items.length

/-- `MemoryView.first` (memory_backend.py lines 82-83): `self._items[0]`. -/
def firstView (items : List (Option MObj)) : Except String (Option MObj) :=
  match items with
  | [] => Except.error "IndexError: list index out of range"
  | x :: _ => Except.ok x

/-- `MemoryView.last` (memory_backend.py lines 85-86): `self._items[-1]`. -/
def lastView (items : List (Option MObj)) : Except String (Option MObj) :=
  match items.getLast? with
  | some x => Except.ok x
  | none => Except.error "IndexError: list index out of range"

/-- C4: `MemoryView.union` with any non-empty collection of views raises
`AttributeError` (`axll_pk` is a typo for `all_pk` two lines above it), while
`union([])` rebuilds the view over its own identities — here evaluated on a
two-instance table, where it returns the same items and count. -/
theorem memoryview_union_axll_pk_bug :
    unionViews
        [some { pk := some 0 }, some { pk := some 1 }]
        [some { pk := some 0 }, some { pk := some 1 }]
        [[some { pk := some 0 }]]
      = Except.error "AttributeError: axll_pk" ∧
    unionViews
        [some { pk := some 0 }, some { pk := some 1 }]
        [some { pk := some 0 }, some { pk := some 1 }]
        []
      = Except.ok [some { pk := some 0 }, some { pk := some 1 }] ∧
    countView [some ({ pk := some 0 } : MObj), some { pk := some 1 }]
      = countView [some ({ pk := some 0 } : MObj), some { pk := some 1 }] := by
  refine ⟨rfl, rfl, rfl⟩

/-- C8: on a view with no elements the memory backend's `first` and `last`
raise `IndexError` (`self._items[0]` / `self._items[-1]` on an empty list)
instead of returning the absent value documented by `Group.first`/`last`. -/
theorem memoryview_first_last_empty_raise :
    firstView [] = Except.error "IndexError: list index out of range" ∧
    lastView [] = Except.error "IndexError: list index out of range" := by
  refine ⟨rfl, rfl⟩

/-! ## `rubedo/memory_backend.py` — substring search

`MemoryView.where` with a `field.contains(pattern)` comparator
(field_descriptors.py: `value is not None and operator.contains(value,
pattern)`), and `MemoryRepositoryBase.search` (memory_backend.py lines
162-183).
-/

/-- Python `operator.contains(value, pattern)` on a field value: substring
test on a string, element equality on a list of strings, equality (hence
`False`) against model instances of a collection, `TypeError` on a bare
model instance. -/
def valueContains (v : FValue) (pat : String) : Except String Bool :=
  match v with
  | FValue.vnone => Except.ok false
  | FValue.vstr s => Except.ok (strContainsSub s pat)
  | FValue.vstrs ss => Except.ok (ss.contains pat)
  | FValue.vref _ => Except.error "TypeError: argument is not iterable"
  | FValue.vrefs _ => Except.ok false

/-- The comparator filter on one instance: reads `_raw_<field>` (a missing
field raises `AttributeError`). -/
def objFieldContains (o : MObj) (fieldName pat : String) : Except String Bool :=
  match dictFind o.fields fieldName with
  | some v => valueContains v pat
  | none => Except.error "AttributeError"

/-- `MemoryView.where(field.contains(pattern))` (memory_backend.py lines
88-112): collect the pks of matching items, then build a new view over them
from the repository. -/
def whereStep (fieldName pat : String) (acc : List (Option Nat))
    (o : Option MObj) : Except String (List (Option Nat)) :=
  match o with
  | none => Except.error "AttributeError: NoneType has no attribute"
  | some m => do
      let b ← objFieldContains m fieldName pat
      if b then pure (acc ++ [m.pk]) else pure acc

def whereContains (repoItems : List (Option MObj)) (items : List (Option MObj))
    (fieldName pat : String) : Except String (List (Option MObj)) := do
  let pks ← items.foldlM (whereStep fieldName pat) []
  viewInitItems repoItems (some pks)

/-- Insert into a Python dict: an existing key keeps its position and gets
the new value, a new key is appended. -/
def pkDictInsert (d : List (Option Nat × FValue)) (k : Option Nat)
    (v : FValue) : List (Option Nat × FValue) :=
  if d.any (fun p => p.1 = k) then
    d.map (fun p => if p.1 = k then (k, v) else p)
  else d ++ [(k, v)]

/-- `RepositorySearchFieldResult` for one searched field: `matches` (pk →
matched value, a dict) and the narrowed view (the memory backend always
produces one). -/
structure RepoFieldResult where
  matchesMap : List (Option Nat × FValue)
  view : List (Option MObj)
deriving DecidableEq, Repr

/-- `RepositorySearchResult`. -/
structure RepoSearchResult where
  matching_pks : List (Option Nat)
  results : List (String × RepoFieldResult)
deriving DecidableEq, Repr

/-- One matches-dict entry: `(model.pk, getattr(model, field_name))`. -/
def matchesStep (f : String) (d : List (Option Nat × FValue)) (o : Option MObj) :
    Except String (List (Option Nat × FValue)) :=
  match o with
  | some m =>
      match dictFind m.fields f with
      | some v => Except.ok (pkDictInsert d m.pk v)
      | none => Except.error "AttributeError"
  | none => Except.error "AttributeError: NoneType has no attribute pk"

/-- One iteration of the `for field_name in search_fields` loop of
`MemoryRepositoryBase.search`. -/
def searchFieldStep (repoItems viewItems : List (Option MObj)) (pat : String)
    (st : List (Option Nat) × List (String × RepoFieldResult)) (f : String) :
    Except String (List (Option Nat) × List (String × RepoFieldResult)) := do
  let resultViewItems ← whereContains repoItems viewItems f pat
  let matchesMap ← resultViewItems.foldlM (matchesStep f) []
  pure (st.1 ++ matchesMap.map (fun p => p.1),
        st.2 ++ [(f, ⟨matchesMap, resultViewItems⟩)])

/-- `MemoryRepositoryBase.search` (memory_backend.py lines 162-183): for each
search field, narrow the view with `field.contains(pattern)`, build the
matches dict over the narrowed view, and extend `matching_pks` with the
dict's keys. -/
def repoSearch (repoItems : List (Option MObj)) (viewItems : List (Option MObj))
    (pat : String) (searchFields : List String) :
    Except String RepoSearchResult := do
  let st ← searchFields.foldlM (searchFieldStep repoItems viewItems pat) ([], [])
  pure ⟨st.1, st.2⟩

/-! ## `rubedo/group.py` — the Group hierarchy and recursive search

A compiled model's metadata as the Group engine consults it: singular /
plural names, the parsed `__enhancedfields__`, and the key sets of the two
back-reference dicts (used by `ModelBase.__getattr__` fallbacks during
navigation).  A `Univ` bundles the model metadata with the per-model
in-memory tables (`type(repo)._items`).
-/

structure ModelMeta where
  membername : String
  membersname : String
  enhancedfields : List (String × EnhancedFieldResult)
  backrefKeys : List String
  backrefUselistKeys : List String
deriving DecidableEq, Repr

structure Univ where
  meta : String → ModelMeta
  tables : String → List (Option MObj)

/-- Attribute access during navigation: the stored field value, or the
`ModelBase.__getattr__` back-reference default.  (The default is also cached
on the instance; the cached value equals the returned one, so reads are
unaffected and the caching write is omitted here — it is proved separately
on `modelGetattr`.) -/
def instGetattrF (meta : ModelMeta) (o : MObj) (nm : String) :
    Except String FValue :=
  match dictFind o.fields nm with
  | some v => Except.ok v
  | none =>
      if meta.backrefKeys.contains nm then Except.ok FValue.vnone
      else if meta.backrefUselistKeys.contains nm then
        Except.ok (FValue.vrefs [])
      else Except.error "AttributeError"

/-- `Group._find_related_group_field_name` (group.py lines 45-64): the first
field of the current model whose resolved type is the other group's model;
otherwise the implicit back-reference name — the other model's plural name
when descending, its singular name when ascending. -/
def findRelatedFieldName (curMeta : ModelMeta) (otherModelName : String)
    (otherMeta : ModelMeta) (isSub : Bool) : String :=
  match curMeta.enhancedfields.find?
      (fun p => p.2.unwrapped_type = FieldType.model otherModelName) with
  | some p => p.1
  | none => if isSub then otherMeta.membersname else otherMeta.membername

/-- Append without repetition: `if submodel.pk not in pks: pks.append(...)`. -/
def dedupAppend (acc : List (Option Nat)) (ps : List (Option Nat)) :
    List (Option Nat) :=
  ps.foldl (fun acc2 p => if acc2.contains p then acc2 else acc2 ++ [p]) acc

/-- One view instance's contribution to `build_submodel_view`. -/
def subViewStep (curMeta : ModelMeta) (fieldName : String)
    (acc : List (Option Nat)) (o : Option MObj) :
    Except String (List (Option Nat)) :=
  match o with
  | none => Except.error "AttributeError: NoneType has no attribute"
  | some m => do
      let v ← instGetattrF curMeta m fieldName
      match v with
      | FValue.vrefs ps => pure (dedupAppend acc ps)
      | FValue.vnone => Except.error "TypeError: NoneType is not iterable"
      | _ => Except.error "TypeError: value is not iterable"

/-- `MemoryRepositoryBase.build_submodel_view` (memory_backend.py lines
201-213): walk the view's instances, collect their submodels' pks without
repetition, and build a view over the submodel's repository. -/
def buildSubmodelView (subTable : List (Option MObj)) (curMeta : ModelMeta)
    (viewItems : List (Option MObj)) (fieldName : String) :
    Except String (List (Option MObj)) := do
  let pks ← viewItems.foldlM (subViewStep curMeta fieldName) []
  viewInitItems subTable (some pks)

/-- One view instance's contribution to `build_supermodel_view`:
`getattr(model, field_name).pk`. -/
def superViewStep (curMeta : ModelMeta) (fieldName : String)
    (acc : List (Option Nat)) (o : Option MObj) :
    Except String (List (Option Nat)) :=
  match o with
  | none => Except.error "AttributeError: NoneType has no attribute"
  | some m => do
      let v ← instGetattrF curMeta m fieldName
      match v with
      | FValue.vref p => pure (acc ++ [p])
      | _ => Except.error "AttributeError: value has no attribute pk"

/-- `MemoryRepositoryBase.build_supermodel_view` (memory_backend.py lines
189-199): collect `getattr(model, field_name).pk` for every instance of the
view and build a view over the super model's repository. -/
def buildSupermodelView (superTable : List (Option MObj))
    (curMeta : ModelMeta) (viewItems : List (Option MObj))
    (fieldName : String) : Except String (List (Option MObj)) := do
  let pks ← viewItems.foldlM (superViewStep curMeta fieldName) []
  viewInitItems superTable (some pks)

/-- A compiled Group class: its model, its `_SEARCH_FIELDS` and its
`_SUBGROUPS` (key → subgroup class, in registration order).  The
`_SUPER_GROUP` back-link of each subgroup is, by `subgroup_class`
registration, the group that lists it, so the recursion below passes it
down instead of storing a cyclic pointer. -/
inductive GroupCls where
  | mk (modelName : String) (searchFieldNames : List String)
      (subgroups : List (String × GroupCls))

def GroupCls.modelName : GroupCls → String
  | GroupCls.mk m _ _ => m

def GroupCls.searchFieldNames : GroupCls → List String
  | GroupCls.mk _ sf _ => sf

def GroupCls.subgroups : GroupCls → List (String × GroupCls)
  | GroupCls.mk _ _ subs => subs

/-- `Group._build_subgroup` (group.py lines 66-71), producing the subgroup's
view. -/
def buildSubgroupView (u : Univ) (curModel : String)
    (viewItems : List (Option MObj)) (sub : GroupCls) :
    Except String (List (Option MObj)) :=
  let fieldName := findRelatedFieldName (u.meta curModel) sub.modelName
    (u.meta sub.modelName) true
  buildSubmodelView (u.tables sub.modelName) (u.meta curModel) viewItems
    fieldName

/-- The super-group view of a result group
(`getattr(res.group, res.group._SUPER_GROUP_NAME)._view` in `Group.search`):
`Group._build_super_group` (group.py lines 73-81) from the sub model up to
its super group's model. -/
def buildSuperViewOf (u : Univ) (subModel superModel : String)
    (viewItems : List (Option MObj)) : Except String (List (Option MObj)) :=
  let fieldName := findRelatedFieldName (u.meta subModel) superModel
    (u.meta superModel) false
  buildSupermodelView (u.tables superModel) (u.meta subModel) viewItems
    fieldName

/-- The outcome of `Group.search` at one node: the accumulated
`matching_pks`, the final group's view (`SearchResults.group._view`) and the
per-field results.  (The `subresults` tree is consumed by the recursion and
not needed by the claims.) -/
structure GSearchRes where
  matchingPks : List (Option Nat)
  groupViewItems : List (Option MObj)
  fieldResults : List (String × RepoFieldResult)
deriving DecidableEq, Repr

mutual

/-- `Group.search` (group.py lines 130-207) under the memory backend. -/
def groupSearch (u : Univ) : GroupCls → List (Option MObj) → String →
    Except String GSearchRes
  | GroupCls.mk modelName searchFields subgroups, viewItems, pat => do
      -- recursively search every subgroup (the `subresults` loop)
      let subres ← groupSearchSubresults u modelName viewItems pat subgroups
      -- `if subresults:` — project each result group back up and union
      let subPks ← match subres with
        | [] => pure ([] : List (Option Nat))
        | _ :: _ => do
            let projViews ← subres.mapM (fun p =>
              buildSuperViewOf u p.1.modelName modelName p.2.groupViewItems)
            match projViews with
            | [] => pure ([] : List (Option Nat))
            | first :: rest => do
                let unioned ← unionViews (u.tables modelName) first rest
                allPk unioned
      -- search this level's own fields
      let searchRes ← repoSearch (u.tables modelName) viewItems pat
        searchFields
      let matchingPks := subPks ++ searchRes.matching_pks
      -- the final group over the reduction of the accumulated pks
      let groupViewItems ← viewInitItems (u.tables modelName)
        (some matchingPks)
      pure ⟨matchingPks, groupViewItems, searchRes.results⟩

/-- The `for field, subgroup in self._SUBGROUPS.items()` loop of
`Group.search`: build each subgroup (its view) and search it. -/
def groupSearchSubresults (u : Univ) (curModel : String)
    (viewItems : List (Option MObj)) (pat : String) :
    List (String × GroupCls) → Except String (List (GroupCls × GSearchRes))
  | [] => pure []
  | (_, sub) :: rest => do
      let sview ← buildSubgroupView u curModel viewItems sub
      let res ← groupSearch u sub sview pat
      let restRes ← groupSearchSubresults u curModel viewItems pat rest
      pure ((sub, res) :: restRes)

end

/-- C9: the search of the embedding is a pure function of the repository
state: it only reads the tables through view construction and never writes,
so two runs against the same unmodified state produce the same result — in
particular the same matching-identity list in the same order. -/
theorem group_search_deterministic (u : Univ) (g : GroupCls)
    (viewItems : List (Option MObj)) (pat : String)
    (r1 r2 : Except String GSearchRes)
    (h1 : groupSearch u g viewItems pat = r1)
    (h2 : groupSearch u g viewItems pat = r2) :
    r1 = r2 ∧
    ∀ a b, r1 = Except.ok a → r2 = Except.ok b →
      a.matchingPks = b.matchingPks := by
  constructor
  · rw [← h1, ← h2]
  · intro a b ha hb
    rw [← h1] at ha
    rw [← h2] at hb
    rw [ha] at hb
    rw [Except.ok.inj hb]

/-! A concrete one-model hierarchy used by the search claims: model `"m"`
with two string fields `a` and `b`, one stored instance whose both fields
contain the pattern. -/

def c1Obj : MObj :=
  { pk := some 0, fields := [("a", FValue.vstr "x"), ("b", FValue.vstr "x")] }

def c1Meta : ModelMeta :=
  { membername := "thing", membersname := "things",
    enhancedfields :=
      [("a", { unwrapped_type := FieldType.scalar "str" }),
       ("b", { unwrapped_type := FieldType.scalar "str" })],
    backrefKeys := [], backrefUselistKeys := [] }

def c1Univ : Univ :=
  { meta := fun _ => c1Meta, tables := fun _ => [some c1Obj] }

def c1Group : GroupCls := GroupCls.mk "m" ["a", "b"] []

/-- Witness for C9: the concrete search is deterministic. -/
theorem group_search_deterministic_witness :
    groupSearch c1Univ c1Group [some c1Obj] "x"
      = groupSearch c1Univ c1Group [some c1Obj] "x" :=
  (group_search_deterministic c1Univ c1Group [some c1Obj] "x"
      (groupSearch c1Univ c1Group [some c1Obj] "x")
      (groupSearch c1Univ c1Group [some c1Obj] "x") rfl rfl).1

/-- C1 counterexample: an instance matching the pattern in two search fields
is accumulated twice — `matching_pks = [0, 0]` — and the final group's view
holds the same instance twice, so duplicate identities *are* repeated. -/
theorem group_search_duplicates_counterexample :
    groupSearch c1Univ c1Group [some c1Obj] "x"
      = Except.ok
          { matchingPks := [some 0, some 0],
            groupViewItems := [some c1Obj, some c1Obj],
            fieldResults :=
              [("a", { matchesMap := [(some 0, FValue.vstr "x")],
                       view := [some c1Obj] }),
               ("b", { matchesMap := [(some 0, FValue.vstr "x")],
                       view := [some c1Obj] })] } ∧
    ¬ ([some 0, some 0] : List (Option Nat)).Nodup := by
  exact ⟨rfl, by decide⟩

/-! Spec-side descriptions and well-formedness predicates used to settle the
search claims. -/

/-- The table discipline `add` maintains: the instance stored at index `i`
has pk `i`. -/
def alignedTable (t : List (Option MObj)) : Prop :=
  ∀ (i : Nat) (x : MObj), t[i]? = some (some x) → x.pk = some i

def alignedState (u : Univ) : Prop := ∀ m, alignedTable (u.tables m)

/-- What `MemoryView.__init__` builds from a pk list, as a pure function:
keep, in order, the live table entry of each integer pk. -/
def specViewItems (t : List (Option MObj)) (pks : List (Option Nat)) :
    List (Option MObj) :=
  pks.filterMap (fun opk =>
    match opk with
    | some k =>
        match t[k]? with
        | some (some x) => some (some x)
        | _ => none
    | none => none)

/-- Whether an instance's field matches the pattern, per the spec: substring
on a string field, element equality on a string-collection field. -/
def specMatchesB (m : MObj) (f pat : String) : Bool :=
  match dictFind m.fields f with
  | some (FValue.vstr s) => strContainsSub s pat
  | some (FValue.vstrs ss) => ss.contains pat
  | _ => false

/-- The own-field contribution the spec predicts: per search field in
declared order, the identities of the view's matching instances in view
order. -/
def specOwnPks (viewItems : List (Option MObj)) (pat : String)
    (fields : List String) : List (Option Nat) :=
  fields.flatMap (fun f =>
    ((viewItems.filterMap id).filter (fun m => specMatchesB m f pat)).map
      (fun m => m.pk))

/-- A field is string-valued on an instance. -/
def fieldStringy (x : MObj) (f : String) : Prop :=
  (∃ s, dictFind x.fields f = some (FValue.vstr s)) ∨
  (∃ ss, dictFind x.fields f = some (FValue.vstrs ss))

/-- All of a node's declared search fields are string-valued on every live
instance of its table. -/
def tableFieldsStringy (t : List (Option MObj)) (fields : List String) : Prop :=
  ∀ (i : Nat) (x : MObj), t[i]? = some (some x) → ∀ f ∈ fields, fieldStringy x f

/-- Parent/child link consistency across one subgroup edge: whenever a live
parent's resolved down-field lists a child pk, the live child at that pk
points back to that parent through the resolved up-field. -/
def edgeConsistent (u : Univ) (superModel : String) (sub : GroupCls) : Prop :=
  ∀ (x : MObj) (i : Nat), (u.tables superModel)[i]? = some (some x) →
    ∀ ps, instGetattrF (u.meta superModel) x
        (findRelatedFieldName (u.meta superModel) sub.modelName
          (u.meta sub.modelName) true)
        = Except.ok (FValue.vrefs ps) →
    ∀ cpk ∈ ps, ∀ (c : MObj) (k : Nat), cpk = some k →
      (u.tables sub.modelName)[k]? = some (some c) →
      instGetattrF (u.meta sub.modelName) c
        (findRelatedFieldName (u.meta sub.modelName) superModel
          (u.meta superModel) false)
        = Except.ok (FValue.vref (some i))

/-- Well-formedness of a group tree in a state: searchable fields are
string-valued, every node has at most one subgroup (more would crash on the
`axll_pk` union bug), and parent/child links are consistent. -/
inductive TreeOk (u : Univ) : GroupCls → Prop
  | mk : ∀ (m : String) (sf : List String)
      (subs : List (String × GroupCls)),
      tableFieldsStringy (u.tables m) sf →
      subs.length ≤ 1 →
      (∀ sp ∈ subs, edgeConsistent u m sp.2) →
      (∀ sp ∈ subs, TreeOk u sp.2) →
      TreeOk u (GroupCls.mk m sf subs)

lemma viewInitStep_some (t : List (Option MObj))
    (acc : List (Option MObj)) (k : Nat) :
    viewInitStep t acc (some k)
      = match t[k]? with
        | some (some item) => Except.ok (acc ++ [some item])
        | some none => Except.ok acc
        | none => Except.error "IndexError: list index out of range" := rfl

lemma viewInitItems_ok_aux (t : List (Option MObj)) :
    ∀ (pks : List (Option Nat)) (acc items : List (Option MObj)),
      pks.foldlM (viewInitStep t) acc = Except.ok items →
      items = acc ++ specViewItems t pks := by
  intro pks
  induction pks with
  | nil =>
      intro acc items h
      have : acc = items := by
        simpa [List.foldlM, pure, Except.pure] using h
      rw [← this]
      simp [specViewItems]
  | cons opk pks ih =>
      intro acc items h
      rw [List.foldlM_cons] at h
      cases opk with
      | none =>
          simp [viewInitStep, bind, Except.bind] at h
      | some k =>
          rw [viewInitStep_some] at h
          cases ht : t[k]? with
          | none =>
              rw [ht] at h
              exact Except.noConfusion h
          | some e =>
              cases e with
              | none =>
                  rw [ht] at h
                  have := ih acc items h
                  rw [this]
                  simp [specViewItems, ht]
              | some x =>
                  rw [ht] at h
                  have := ih (acc ++ [some x]) items h
                  rw [this]
                  simp [specViewItems, ht]

lemma viewInitItems_ok {t : List (Option MObj)} {pks : List (Option Nat)}
    {items : List (Option MObj)}
    (h : viewInitItems t (some pks) = Except.ok items) :
    items = specViewItems t pks := by
  have := viewInitItems_ok_aux t pks [] items h
  simpa using this

lemma allPk_ok :
    ∀ (items : List (Option MObj)) (l : List (Option Nat)),
      allPk items = Except.ok l →
      ∃ xs : List MObj, items = xs.map some ∧ l = xs.map (fun x => x.pk) := by
  intro items
  induction items with
  | nil =>
      intro l h
      refine ⟨[], rfl, ?_⟩
      unfold allPk at h
      rw [List.mapM_nil] at h
      have : l = [] := by
        simpa [pure, Except.pure] using h.symm
      simp [this]
  | cons o items ih =>
      intro l h
      unfold allPk at h
      rw [List.mapM_cons] at h
      cases o with
      | none =>
          simp [allPkStep, bind, Except.bind] at h
      | some m =>
          rw [show allPkStep (some m) = Except.ok m.pk from rfl] at h
          simp only [bind, Except.bind] at h
          cases hrest : items.mapM allPkStep with
          | error e => rw [hrest] at h; exact Except.noConfusion h
          | ok rest =>
              rw [hrest] at h
              obtain ⟨xs, hx, hl⟩ := ih rest hrest
              refine ⟨m :: xs, by simp [hx], ?_⟩
              have : m.pk :: rest = l := by
                simpa [bind, Except.bind, pure, Except.pure] using h
              rw [← this, hl]
              simp

lemma filterMap_id_map_some (xs : List MObj) :
    (xs.map some).filterMap id = xs := by
  induction xs with
  | nil => rfl
  | cons x xs ih => simp [ih]

lemma objFieldContains_stringy {x : MObj} {f : String} (h : fieldStringy x f)
    (pat : String) :
    objFieldContains x f pat = Except.ok (specMatchesB x f pat) := by
  rcases h with ⟨s, hs⟩ | ⟨ss, hss⟩
  · simp [objFieldContains, specMatchesB, hs, valueContains]
  · simp [objFieldContains, specMatchesB, hss, valueContains]

lemma whereStep_fold (f pat : String) :
    ∀ (xs : List MObj) (acc : List (Option Nat)),
      (∀ x ∈ xs, fieldStringy x f) →
      (xs.map some).foldlM (whereStep f pat) acc
        = Except.ok (acc ++
            ((xs.filter (fun m => specMatchesB m f pat)).map (fun m => m.pk))) := by
  intro xs
  induction xs with
  | nil =>
      intro acc _
      simp [List.foldlM, pure, Except.pure]
  | cons x xs ih =>
      intro acc hstr
      rw [List.map_cons, List.foldlM_cons]
      have hstep : whereStep f pat acc (some x)
          = Except.ok (if specMatchesB x f pat then acc ++ [x.pk] else acc) := by
        rw [show whereStep f pat acc (some x)
              = (objFieldContains x f pat >>= fun b =>
                  if b then pure (acc ++ [x.pk]) else pure acc) from rfl]
        rw [objFieldContains_stringy (hstr x (List.mem_cons_self x xs)) pat]
        cases hb : specMatchesB x f pat <;>
          simp [hb, bind, Except.bind, pure, Except.pure]
      rw [hstep]
      rw [show ((Except.ok (if specMatchesB x f pat then acc ++ [x.pk] else acc)
              : Except String (List (Option Nat)))
            >>= fun acc2 => (xs.map some).foldlM (whereStep f pat) acc2)
          = (xs.map some).foldlM (whereStep f pat)
              (if specMatchesB x f pat then acc ++ [x.pk] else acc) from rfl]
      rw [ih _ (fun y hy => hstr y (List.mem_cons_of_mem _ hy))]
      cases hb : specMatchesB x f pat <;>
        simp [hb, List.filter_cons]

lemma viewInit_live_aux (t : List (Option MObj)) (halign : alignedTable t) :
    ∀ (ys : List MObj) (acc : List (Option MObj)),
      (∀ y ∈ ys, ∃ i : Nat, t[i]? = some (some y)) →
      (ys.map (fun y => y.pk)).foldlM (viewInitStep t) acc
        = Except.ok (acc ++ ys.map some) := by
  intro ys
  induction ys with
  | nil =>
      intro acc _
      simp [List.foldlM, pure, Except.pure]
  | cons y ys ih =>
      intro acc hlive
      obtain ⟨i, hi⟩ := hlive y (List.mem_cons_self y ys)
      have hpk : y.pk = some i := halign i y hi
      rw [List.map_cons, List.foldlM_cons, hpk, viewInitStep_some]
      rw [hi]
      rw [show ((Except.ok (acc ++ [some y]) : Except String (List (Option MObj)))
            >>= fun acc2 => (ys.map (fun y => y.pk)).foldlM (viewInitStep t) acc2)
          = (ys.map (fun y => y.pk)).foldlM (viewInitStep t) (acc ++ [some y])
          from rfl]
      rw [ih _ (fun z hz => hlive z (List.mem_cons_of_mem _ hz))]
      simp

lemma viewInit_live (t : List (Option MObj)) (halign : alignedTable t)
    (ys : List MObj) (hlive : ∀ y ∈ ys, ∃ i : Nat, t[i]? = some (some y)) :
    viewInitItems t (some (ys.map (fun y => y.pk))) = Except.ok (ys.map some) := by
  show (ys.map (fun y => y.pk)).foldlM (viewInitStep t) [] = _
  rw [viewInit_live_aux t halign ys [] hlive]
  simp

lemma whereContains_ok {t : List (Option MObj)} {xs : List MObj} {f pat : String}
    (halign : alignedTable t)
    (hlive : ∀ x ∈ xs, ∃ i : Nat, t[i]? = some (some x))
    (hstr : ∀ x ∈ xs, fieldStringy x f) :
    whereContains t (xs.map some) f pat
      = Except.ok ((xs.filter (fun m => specMatchesB m f pat)).map some) := by
  unfold whereContains
  rw [whereStep_fold f pat xs [] hstr]
  rw [show ((Except.ok ([] ++ (xs.filter (fun m => specMatchesB m f pat)).map
              (fun m => m.pk)) : Except String (List (Option Nat)))
        >>= fun pks => viewInitItems t (some pks))
      = viewInitItems t (some ([] ++ (xs.filter
          (fun m => specMatchesB m f pat)).map (fun m => m.pk))) from rfl]
  rw [List.nil_append]
  exact viewInit_live t halign _
    (fun y hy => hlive y (List.mem_of_mem_filter hy))

lemma matchesStep_fold (f : String) :
    ∀ (ys : List MObj) (d : List (Option Nat × FValue)),
      (∀ y ∈ ys, ∃ v, dictFind y.fields f = some v) →
      (d.map (fun p => p.1) ++ ys.map (fun y => y.pk)).Nodup →
      ∃ mm, (ys.map some).foldlM (matchesStep f) d = Except.ok mm ∧
        mm.map (fun p => p.1)
          = d.map (fun p => p.1) ++ ys.map (fun y => y.pk) := by
  intro ys
  induction ys with
  | nil =>
      intro d _ _
      exact ⟨d, by simp [List.foldlM, pure, Except.pure], by simp⟩
  | cons y ys ih =>
      intro d hfield hnodup
      obtain ⟨v, hv⟩ := hfield y (List.mem_cons_self y ys)
      have hfresh : d.any (fun p => p.1 = y.pk) = false := by
        have hdisj := (List.nodup_append.mp hnodup).2.2
        simp [List.any_eq_false]
        intro a b hab hcon
        exact hdisj (List.mem_map.mpr ⟨(a, b), hab, by simp [hcon]⟩)
          (List.mem_map.mpr ⟨y, List.mem_cons_self y ys, rfl⟩)
      have hstep : matchesStep f d (some y)
          = Except.ok (d ++ [(y.pk, v)]) := by
        rw [show matchesStep f d (some y)
              = (match dictFind y.fields f with
                 | some v => Except.ok (pkDictInsert d y.pk v)
                 | none => Except.error "AttributeError") from rfl, hv]
        unfold pkDictInsert
        rw [hfresh]
        simp
      rw [List.map_cons, List.foldlM_cons, hstep]
      rw [show ((Except.ok (d ++ [(y.pk, v)])
              : Except String (List (Option Nat × FValue)))
            >>= fun d2 => (ys.map some).foldlM (matchesStep f) d2)
          = (ys.map some).foldlM (matchesStep f) (d ++ [(y.pk, v)]) from rfl]
      have hnodup2 : ((d ++ [(y.pk, v)]).map (fun p => p.1)
          ++ ys.map (fun y => y.pk)).Nodup := by
        simp only [List.map_append, List.map_cons, List.map_nil,
          List.append_assoc] at hnodup ⊢
        simpa using hnodup
      obtain ⟨mm, hmm, hkeys⟩ :=
        ih (d ++ [(y.pk, v)]) (fun z hz => hfield z (List.mem_cons_of_mem _ hz))
          hnodup2
      refine ⟨mm, hmm, ?_⟩
      rw [hkeys]
      simp

lemma repoSearch_fold {t : List (Option MObj)} {xs : List MObj} {pat : String}
    (halign : alignedTable t)
    (hlive : ∀ x ∈ xs, ∃ i : Nat, t[i]? = some (some x))
    (hnodup : (xs.map (fun x => x.pk)).Nodup) :
    ∀ (fields : List String)
      (st : List (Option Nat) × List (String × RepoFieldResult)),
      (∀ x ∈ xs, ∀ f ∈ fields, fieldStringy x f) →
      ∃ st', fields.foldlM (searchFieldStep t (xs.map some) pat) st
          = Except.ok st' ∧
        st'.1 = st.1 ++ specOwnPks (xs.map some) pat fields := by
  intro fields
  induction fields with
  | nil =>
      intro st _
      exact ⟨st, by simp [List.foldlM, pure, Except.pure],
        by simp [specOwnPks]⟩
  | cons f fields ih =>
      intro st hstr
      have hwhere := @whereContains_ok t xs f pat halign hlive
        (fun x hx => hstr x hx f (List.mem_cons_self f fields))
      have hmfold := matchesStep_fold f
        (xs.filter (fun m => specMatchesB m f pat)) []
        (fun y hy => by
          rcases hstr y (List.mem_of_mem_filter hy) f
              (List.mem_cons_self f fields) with ⟨s, hs⟩ | ⟨ss, hss⟩
          · exact ⟨_, hs⟩
          · exact ⟨_, hss⟩)
        (by
          simp only [List.map_nil, List.nil_append]
          exact hnodup.sublist
            (List.Sublist.map _ (List.filter_sublist xs)))
      obtain ⟨mm, hmm, hkeys⟩ := hmfold
      have hstep : searchFieldStep t (xs.map some) pat st f
          = Except.ok (st.1 ++ mm.map (fun p => p.1),
              st.2 ++ [(f, ⟨mm, (xs.filter
                (fun m => specMatchesB m f pat)).map some⟩)]) := by
        unfold searchFieldStep
        rw [hwhere]
        simp only [bind, Except.bind]
        rw [hmm]
        rfl
      rw [List.foldlM_cons, hstep]
      rw [show ((Except.ok (st.1 ++ mm.map (fun p => p.1),
              st.2 ++ [(f, ⟨mm, (xs.filter
                (fun m => specMatchesB m f pat)).map some⟩)])
              : Except String (List (Option Nat)
                  × List (String × RepoFieldResult)))
            >>= fun st2 => fields.foldlM (searchFieldStep t (xs.map some) pat) st2)
          = fields.foldlM (searchFieldStep t (xs.map some) pat)
              (st.1 ++ mm.map (fun p => p.1),
               st.2 ++ [(f, ⟨mm, (xs.filter
                 (fun m => specMatchesB m f pat)).map some⟩)]) from rfl]
      obtain ⟨st', hst', hpks⟩ := ih
        (st.1 ++ mm.map (fun p => p.1),
         st.2 ++ [(f, ⟨mm, (xs.filter (fun m => specMatchesB m f pat)).map some⟩)])
        (fun x hx g hg => hstr x hx g (List.mem_cons_of_mem _ hg))
      refine ⟨st', hst', ?_⟩
      rw [hpks]
      simp only []
      rw [hkeys]
      simp only [List.map_nil, List.nil_append, List.append_assoc]
      congr 1
      show _ = specOwnPks (xs.map some) pat (f :: fields)
      unfold specOwnPks
      rw [List.flatMap_cons, filterMap_id_map_some]

/-- `MemoryRepositoryBase.search`, characterized on a well-formed view: the
returned `matching_pks` is exactly the spec's own-field contribution. -/
lemma repoSearch_ok {t : List (Option MObj)} {xs : List MObj} {pat : String}
    {fields : List String} {sr : RepoSearchResult}
    (halign : alignedTable t)
    (hlive : ∀ x ∈ xs, ∃ i : Nat, t[i]? = some (some x))
    (hnodup : (xs.map (fun x => x.pk)).Nodup)
    (hstr : ∀ x ∈ xs, ∀ f ∈ fields, fieldStringy x f)
    (hrun : repoSearch t (xs.map some) pat fields = Except.ok sr) :
    sr.matching_pks = specOwnPks (xs.map some) pat fields := by
  obtain ⟨st', hst', hpks⟩ :=
    repoSearch_fold halign hlive hnodup fields ([], []) hstr
  unfold repoSearch at hrun
  rw [hst'] at hrun
  have : sr = ⟨st'.1, st'.2⟩ := by
    simpa [bind, Except.bind, pure, Except.pure] using hrun.symm
  rw [this]
  simpa using hpks

lemma dedupAppend_props :
    ∀ (ps acc : List (Option Nat)),
      (acc.Nodup → (dedupAppend acc ps).Nodup) ∧
      (∀ q ∈ dedupAppend acc ps, q ∈ acc ∨ q ∈ ps) := by
  intro ps
  induction ps with
  | nil =>
      intro acc
      exact ⟨fun h => h, fun q hq => Or.inl hq⟩
  | cons p ps ih =>
      intro acc
      rw [show dedupAppend acc (p :: ps)
            = dedupAppend (if acc.contains p then acc else acc ++ [p]) ps
          from rfl]
      by_cases hc : acc.contains p
      · rw [if_pos hc]
        refine ⟨(ih acc).1, fun q hq => ?_⟩
        rcases (ih acc).2 q hq with h | h
        · exact Or.inl h
        · exact Or.inr (List.mem_cons_of_mem _ h)
      · rw [if_neg hc]
        constructor
        · intro hnd
          refine (ih (acc ++ [p])).1 ?_
          simp [List.nodup_append, hnd]
          intro hp
          exact hc (by simpa using hp)
        · intro q hq
          rcases (ih (acc ++ [p])).2 q hq with h | h
          · rcases List.mem_append.mp h with h' | h'
            · exact Or.inl h'
            · simp at h'
              exact Or.inr (h' ▸ List.mem_cons_self p ps)
          · exact Or.inr (List.mem_cons_of_mem _ h)

lemma subViewStep_fold (curMeta : ModelMeta) (fieldName : String) :
    ∀ (xs : List MObj) (acc res : List (Option Nat)),
      (xs.map some).foldlM (subViewStep curMeta fieldName) acc
        = Except.ok res →
      (acc.Nodup → res.Nodup) ∧
      (∀ cpk ∈ res, cpk ∈ acc ∨ ∃ x ∈ xs, ∃ ps,
        instGetattrF curMeta x fieldName = Except.ok (FValue.vrefs ps) ∧
        cpk ∈ ps) := by
  intro xs
  induction xs with
  | nil =>
      intro acc res h
      have : acc = res := by
        simpa [List.foldlM, pure, Except.pure] using h
      rw [← this]
      exact ⟨fun h => h, fun q hq => Or.inl hq⟩
  | cons x xs ih =>
      intro acc res h
      rw [List.map_cons, List.foldlM_cons] at h
      rw [show subViewStep curMeta fieldName acc (some x)
            = (instGetattrF curMeta x fieldName >>= fun v =>
                match v with
                | FValue.vrefs ps => pure (dedupAppend acc ps)
                | FValue.vnone =>
                    Except.error "TypeError: NoneType is not iterable"
                | _ => Except.error "TypeError: value is not iterable")
          from rfl] at h
      cases hv : instGetattrF curMeta x fieldName with
      | error e =>
          rw [hv] at h
          exact Except.noConfusion h
      | ok v =>
          rw [hv] at h
          cases v with
          | vrefs ps =>
              simp only [bind, Except.bind, pure, Except.pure] at h
              obtain ⟨hnd, hmem⟩ := ih (dedupAppend acc ps) res h
              constructor
              · exact fun hacc => hnd ((dedupAppend_props ps acc).1 hacc)
              · intro cpk hcpk
                rcases hmem cpk hcpk with hin | ⟨x2, hx2, ps2, hps2, hcpk2⟩
                · rcases (dedupAppend_props ps acc).2 cpk hin with h' | h'
                  · exact Or.inl h'
                  · exact Or.inr ⟨x, List.mem_cons_self x xs, ps, hv, h'⟩
                · exact Or.inr ⟨x2, List.mem_cons_of_mem _ hx2, ps2, hps2, hcpk2⟩
          | vnone => simp [bind, Except.bind] at h
          | vstr s => simp [bind, Except.bind] at h
          | vstrs ss => simp [bind, Except.bind] at h
          | vref p => simp [bind, Except.bind] at h

lemma superViewStep_fold (curMeta : ModelMeta) (fieldName : String) :
    ∀ (zs : List MObj) (acc res : List (Option Nat)),
      (zs.map some).foldlM (superViewStep curMeta fieldName) acc
        = Except.ok res →
      ∀ q ∈ res, q ∈ acc ∨ ∃ z ∈ zs,
        instGetattrF curMeta z fieldName = Except.ok (FValue.vref q) := by
  intro zs
  induction zs with
  | nil =>
      intro acc res h q hq
      have : acc = res := by
        simpa [List.foldlM, pure, Except.pure] using h
      exact Or.inl (this ▸ hq)
  | cons z zs ih =>
      intro acc res h q hq
      rw [List.map_cons, List.foldlM_cons] at h
      rw [show superViewStep curMeta fieldName acc (some z)
            = (instGetattrF curMeta z fieldName >>= fun v =>
                match v with
                | FValue.vref p => pure (acc ++ [p])
                | _ => Except.error "AttributeError: value has no attribute pk")
          from rfl] at h
      cases hv : instGetattrF curMeta z fieldName with
      | error e =>
          rw [hv] at h
          exact Except.noConfusion h
      | ok v =>
          rw [hv] at h
          cases v with
          | vref p =>
              simp only [bind, Except.bind, pure, Except.pure] at h
              rcases ih (acc ++ [p]) res h q hq with hin | ⟨z2, hz2, hv2⟩
              · rcases List.mem_append.mp hin with h' | h'
                · exact Or.inl h'
                · simp at h'
                  exact Or.inr ⟨z, List.mem_cons_self z zs, h' ▸ hv⟩
              · exact Or.inr ⟨z2, List.mem_cons_of_mem _ hz2, hv2⟩
          | vnone => simp [bind, Except.bind] at h
          | vstr s => simp [bind, Except.bind] at h
          | vstrs ss => simp [bind, Except.bind] at h
          | vrefs ps => simp [bind, Except.bind] at h

lemma mem_specViewItems {t : List (Option MObj)} {pks : List (Option Nat)}
    {e : Option MObj} (h : e ∈ specViewItems t pks) :
    ∃ k : Nat, some k ∈ pks ∧ ∃ x : MObj, t[k]? = some (some x) ∧ e = some x := by
  unfold specViewItems at h
  obtain ⟨opk, hopk, hmatch⟩ := List.mem_filterMap.mp h
  cases opk with
  | none => exact Option.noConfusion hmatch
  | some k =>
      have hmatch2 : (match t[k]? with
          | some (some x) => some (some x)
          | _ => none) = some e := hmatch
      cases ht : t[k]? with
      | none => rw [ht] at hmatch2; exact Option.noConfusion hmatch2
      | some o =>
          cases o with
          | none => rw [ht] at hmatch2; exact Option.noConfusion hmatch2
          | some x =>
              rw [ht] at hmatch2
              exact ⟨k, hopk, x, ht, (Option.some.inj hmatch2).symm⟩

lemma specViewItems_good {t : List (Option MObj)} (halign : alignedTable t) :
    ∀ (pks : List (Option Nat)), pks.Nodup →
      ∃ zs : List MObj, specViewItems t pks = zs.map some ∧
        (∀ z ∈ zs, ∃ i : Nat, t[i]? = some (some z)) ∧
        (zs.map (fun z => z.pk)).Nodup ∧
        (∀ z ∈ zs, z.pk ∈ pks) := by
  intro pks
  induction pks with
  | nil =>
      intro _
      exact ⟨[], rfl, by simp, by simp, by simp⟩
  | cons opk pks ih =>
      intro hnd
      obtain ⟨zs, hzs, hlive, hnodup, hmem⟩ := ih hnd.of_cons
      cases opk with
      | none =>
          refine ⟨zs, ?_, hlive, hnodup, fun z hz =>
            List.mem_cons_of_mem _ (hmem z hz)⟩
          simpa [specViewItems] using hzs
      | some k =>
          cases ht : t[k]? with
          | none =>
              refine ⟨zs, ?_, hlive, hnodup, fun z hz =>
                List.mem_cons_of_mem _ (hmem z hz)⟩
              simp [specViewItems, ht]
              simpa [specViewItems] using hzs
          | some o =>
              cases o with
              | none =>
                  refine ⟨zs, ?_, hlive, hnodup, fun z hz =>
                    List.mem_cons_of_mem _ (hmem z hz)⟩
                  simp [specViewItems, ht]
                  simpa [specViewItems] using hzs
              | some x =>
                  have hxpk : x.pk = some k := halign k x ht
                  refine ⟨x :: zs, ?_, ?_, ?_, ?_⟩
                  · simp [specViewItems, ht]
                    simpa [specViewItems] using hzs
                  · intro z hz
                    rcases List.mem_cons.mp hz with rfl | hz2
                    · exact ⟨k, ht⟩
                    · exact hlive z hz2
                  · simp only [List.map_cons, List.nodup_cons]
                    refine ⟨?_, hnodup⟩
                    intro hcon
                    obtain ⟨z, hz, hzpk⟩ := List.mem_map.mp hcon
                    have := hmem z hz
                    rw [hzpk, hxpk] at this
                    exact (List.nodup_cons.mp hnd).1 this
                  · intro z hz
                    rcases List.mem_cons.mp hz with rfl | hz2
                    · rw [hxpk]; exact List.mem_cons_self _ _
                    · exact List.mem_cons_of_mem _ (hmem z hz2)

lemma specOwnPks_subset (xs : List MObj) (pat : String) (fields : List String) :
    ∀ p ∈ specOwnPks (xs.map some) pat fields, ∃ x ∈ xs, x.pk = p := by
  intro p hp
  unfold specOwnPks at hp
  rw [filterMap_id_map_some] at hp
  obtain ⟨f, _, hpf⟩ := List.mem_flatMap.mp hp
  obtain ⟨x, hx, hxp⟩ := List.mem_map.mp hpf
  exact ⟨x, List.mem_of_mem_filter hx, hxp⟩

lemma specViewItems_entry_mem {t : List (Option MObj)} (halign : alignedTable t)
    {xs : List MObj}
    (hlive : ∀ x ∈ xs, ∃ i : Nat, t[i]? = some (some x))
    {pks : List (Option Nat)}
    (hpks : ∀ p ∈ pks, ∃ x ∈ xs, x.pk = p) :
    ∀ e ∈ specViewItems t pks, e ∈ xs.map some := by
  intro e he
  obtain ⟨k, hk, x, ht, he2⟩ := mem_specViewItems he
  obtain ⟨x', hx', hpk'⟩ := hpks _ hk
  obtain ⟨i, hi⟩ := hlive x' hx'
  have hpi : x'.pk = some i := halign _ _ hi
  have hki : k = i := by
    rw [hpk'] at hpi
    exact Option.some.inj hpi
  rw [hki, hi] at ht
  have hx : x = x' := (Option.some.inj (Option.some.inj ht)).symm
  rw [he2, hx]
  exact List.mem_map.mpr ⟨x', hx', rfl⟩

/-- A list whose entries all belong to `ys.map some` is `zs.map some` for a
list `zs` of members of `ys`. -/
lemma all_some_decomp :
    ∀ (items : List (Option MObj)) (ys : List MObj),
      (∀ e ∈ items, e ∈ ys.map some) →
      ∃ zs : List MObj, items = zs.map some ∧ ∀ z ∈ zs, z ∈ ys := by
  intro items
  induction items with
  | nil => intro ys _; exact ⟨[], rfl, by simp⟩
  | cons e items ih =>
      intro ys hmem
      obtain ⟨z, hz, hze⟩ :=
        List.mem_map.mp (hmem e (List.mem_cons_self e items))
      obtain ⟨zs, hzs, hsub⟩ :=
        ih ys (fun e2 he2 => hmem e2 (List.mem_cons_of_mem _ he2))
      refine ⟨z :: zs, ?_, ?_⟩
      · rw [List.map_cons, hzs, hze]
      · intro w hw
        rcases List.mem_cons.mp hw with rfl | hw2
        · exact hz
        · exact hsub w hw2

lemma exc_bind_ok {α β : Type} (a : α) (f : α → Except String β) :
    (Except.ok a >>= f) = f a := rfl

lemma exc_bind_error {α β : Type} (e : String) (f : α → Except String β) :
    ((Except.error e : Except String α) >>= f) = Except.error e := rfl

lemma groupSearch_mk (u : Univ) (m : String) (sf : List String)
    (subs : List (String × GroupCls)) (viewItems : List (Option MObj))
    (pat : String) :
    groupSearch u (GroupCls.mk m sf subs) viewItems pat
      = (do
          let subres ← groupSearchSubresults u m viewItems pat subs
          let subPks ← match subres with
            | [] => pure ([] : List (Option Nat))
            | _ :: _ => do
                let projViews ← subres.mapM (fun p =>
                  buildSuperViewOf u p.1.modelName m p.2.groupViewItems)
                match projViews with
                | [] => pure ([] : List (Option Nat))
                | first :: rest => do
                    let unioned ← unionViews (u.tables m) first rest
                    allPk unioned
          let searchRes ← repoSearch (u.tables m) viewItems pat sf
          let matchingPks := subPks ++ searchRes.matching_pks
          let groupViewItems ← viewInitItems (u.tables m) (some matchingPks)
          pure ⟨matchingPks, groupViewItems, searchRes.results⟩) := rfl

lemma groupSearchSubresults_nil (u : Univ) (cm : String)
    (viewItems : List (Option MObj)) (pat : String) :
    groupSearchSubresults u cm viewItems pat [] = pure [] := rfl

lemma groupSearchSubresults_cons (u : Univ) (cm : String)
    (viewItems : List (Option MObj)) (pat : String) (key : String)
    (sub : GroupCls) (rest : List (String × GroupCls)) :
    groupSearchSubresults u cm viewItems pat ((key, sub) :: rest)
      = (do
          let sview ← buildSubgroupView u cm viewItems sub
          let res ← groupSearch u sub sview pat
          let restRes ← groupSearchSubresults u cm viewItems pat rest
          pure ((sub, res) :: restRes)) := rfl

/-- The own-field half of `Group.search`: narrows the accumulated pks and
builds the final group. -/
lemma search_tail_assembly
    {t : List (Option MObj)} (halign : alignedTable t) {xs : List MObj}
    (hlive : ∀ x ∈ xs, ∃ i : Nat, t[i]? = some (some x))
    (hnodup : (xs.map (fun x => x.pk)).Nodup)
    {pat : String} {sf : List String}
    (hstr : ∀ x ∈ xs, ∀ f ∈ sf, fieldStringy x f)
    {subPks : List (Option Nat)}
    (hsub : ∀ p ∈ subPks, ∃ x ∈ xs, x.pk = p)
    {r : GSearchRes}
    (hrun : (repoSearch t (xs.map some) pat sf >>= fun searchRes =>
        viewInitItems t (some (subPks ++ searchRes.matching_pks)) >>= fun gvi =>
        pure (⟨subPks ++ searchRes.matching_pks, gvi,
          searchRes.results⟩ : GSearchRes))
        = Except.ok r) :
    (∃ sp, r.matchingPks = sp ++ specOwnPks (xs.map some) pat sf ∧
        ∀ p ∈ sp, ∃ x ∈ xs, x.pk = p) ∧
    (∀ p ∈ r.matchingPks, ∃ x ∈ xs, x.pk = p) ∧
    (∀ e ∈ r.groupViewItems, e ∈ xs.map some) := by
  cases hsr : repoSearch t (xs.map some) pat sf with
  | error e =>
      rw [hsr, exc_bind_error] at hrun
      exact Except.noConfusion hrun
  | ok sr =>
      rw [hsr] at hrun
      simp only [exc_bind_ok] at hrun
      cases hvi : viewInitItems t (some (subPks ++ sr.matching_pks)) with
      | error e =>
          rw [hvi, exc_bind_error] at hrun
          exact Except.noConfusion hrun
      | ok gvi =>
          rw [hvi] at hrun
          simp only [exc_bind_ok] at hrun
          have hr : r = ⟨subPks ++ sr.matching_pks, gvi, sr.results⟩ :=
            (Except.ok.inj hrun).symm
          have hownPks := repoSearch_ok halign hlive hnodup hstr hsr
          have hsubset : ∀ p ∈ subPks ++ sr.matching_pks,
              ∃ x ∈ xs, x.pk = p := by
            intro p hp
            rcases List.mem_append.mp hp with h | h
            · exact hsub p h
            · rw [hownPks] at h
              exact specOwnPks_subset xs pat sf p h
          refine ⟨⟨subPks, ?_, hsub⟩, ?_, ?_⟩
          · rw [hr]
            simp only []
            rw [hownPks]
          · rw [hr]
            exact hsubset
          · rw [hr]
            simp only []
            rw [viewInitItems_ok hvi]
            exact specViewItems_entry_mem halign hlive hsubset

/-- Identities read off a reduction view (`all_pk` after `MemoryView.__init__`)
come from the instances the pk list pointed at. -/
lemma allPk_spec_subset {t : List (Option MObj)} (halign : alignedTable t)
    {xs : List MObj}
    (hlive : ∀ x ∈ xs, ∃ i : Nat, t[i]? = some (some x))
    {pks l : List (Option Nat)}
    (hpks : ∀ p ∈ pks, ∃ x ∈ xs, x.pk = p)
    (h : allPk (specViewItems t pks) = Except.ok l) :
    ∀ p ∈ l, ∃ x ∈ xs, x.pk = p := by
  obtain ⟨ws, hws, hl⟩ := allPk_ok _ l h
  intro p hp
  rw [hl] at hp
  obtain ⟨w, hw, hwp⟩ := List.mem_map.mp hp
  have hsome : (some w) ∈ ws.map some := List.mem_map.mpr ⟨w, hw, rfl⟩
  rw [← hws] at hsome
  have hwxs := specViewItems_entry_mem halign hlive hpks (some w) hsome
  obtain ⟨x, hx, hxw⟩ := List.mem_map.mp hwxs
  refine ⟨x, hx, ?_⟩
  rw [Option.some.inj hxw, hwp]

/-- C1 (amended): on an aligned memory state and a well-formed group tree,
`Group.search` over a view of live instances accumulates `matching_pks` as
the subgroup-derived identities followed by this level's own-field matches
(per search field in declared order, matching instances in view order, a
duplicate identity repeated at each new match rather than skipped); every
accumulated identity is the identity of an instance of the original view,
and the final group's view contains only entries of the original view. -/
theorem group_search_order_and_subset (u : Univ) (halign : alignedState u)
    (g : GroupCls) (hok : TreeOk u g) :
    ∀ (xs : List MObj),
      (∀ x ∈ xs, ∃ i : Nat, (u.tables g.modelName)[i]? = some (some x)) →
      (xs.map (fun x => x.pk)).Nodup →
      ∀ (pat : String) (r : GSearchRes),
        groupSearch u g (xs.map some) pat = Except.ok r →
        (∃ sp, r.matchingPks
            = sp ++ specOwnPks (xs.map some) pat g.searchFieldNames ∧
          ∀ p ∈ sp, ∃ x ∈ xs, x.pk = p) ∧
        (∀ p ∈ r.matchingPks, ∃ x ∈ xs, x.pk = p) ∧
        (∀ e ∈ r.groupViewItems, e ∈ xs.map some) := by
  induction hok with
  | mk m sf subs hstringy hlen hedge hsubok ih =>
    simp only [GroupCls.modelName, GroupCls.searchFieldNames]
    intro xs hlive hnodup pat r hrun
    have hstr : ∀ x ∈ xs, ∀ f ∈ sf, fieldStringy x f := by
      intro x hx f hf
      obtain ⟨i, hi⟩ := hlive x hx
      exact hstringy i x hi f hf
    cases subs with
    | nil =>
        rw [groupSearch_mk, groupSearchSubresults_nil] at hrun
        have hrun2 :
            (repoSearch (u.tables m) (xs.map some) pat sf >>= fun searchRes =>
              viewInitItems (u.tables m)
                  (some (([] : List (Option Nat)) ++ searchRes.matching_pks))
                >>= fun gvi =>
              pure (⟨([] : List (Option Nat)) ++ searchRes.matching_pks, gvi,
                searchRes.results⟩ : GSearchRes))
            = Except.ok r := hrun
        exact search_tail_assembly (halign m) hlive hnodup hstr
          (fun p hp => absurd hp (List.not_mem_nil p)) hrun2
    | cons kv rest =>
        cases rest with
        | cons kv2 rest2 =>
            simp only [List.length_cons] at hlen
            omega
        | nil =>
            obtain ⟨key, sub⟩ := kv
            rw [groupSearch_mk, groupSearchSubresults_cons] at hrun
            cases hsv : buildSubgroupView u m (xs.map some) sub with
            | error e =>
                rw [hsv] at hrun
                simp only [exc_bind_error] at hrun
                exact Except.noConfusion hrun
            | ok sview =>
                rw [hsv] at hrun
                simp only [exc_bind_ok] at hrun
                cases hres : groupSearch u sub sview pat with
                | error e =>
                    rw [hres] at hrun
                    simp only [exc_bind_error] at hrun
                    exact Except.noConfusion hrun
                | ok res =>
                    rw [hres] at hrun
                    simp only [exc_bind_ok] at hrun
                    rw [groupSearchSubresults_nil] at hrun
                    simp only [pure_bind] at hrun
                    have hrun2 :
                        ((buildSuperViewOf u sub.modelName m
                              res.groupViewItems >>= fun pv =>
                            (pure [pv] : Except String
                              (List (List (Option MObj))))) >>=
                            fun projViews =>
                          match projViews with
                          | [] =>
                              repoSearch (u.tables m) (xs.map some) pat sf >>=
                                fun searchRes =>
                              viewInitItems (u.tables m)
                                  (some (([] : List (Option Nat))
                                    ++ searchRes.matching_pks))
                                >>= fun gvi =>
                              pure (⟨([] : List (Option Nat))
                                  ++ searchRes.matching_pks, gvi,
                                searchRes.results⟩ : GSearchRes)
                          | first :: rest2 =>
                              unionViews (u.tables m) first rest2 >>=
                                fun unioned =>
                              allPk unioned >>= fun subPks =>
                              repoSearch (u.tables m) (xs.map some) pat sf >>=
                                fun searchRes =>
                              viewInitItems (u.tables m)
                                  (some (subPks ++ searchRes.matching_pks))
                                >>= fun gvi =>
                              pure (⟨subPks ++ searchRes.matching_pks, gvi,
                                searchRes.results⟩ : GSearchRes))
                        = Except.ok r := hrun
                    -- decompose the subgroup view construction
                    have hsv2 :
                        ((xs.map some).foldlM (subViewStep (u.meta m)
                            (findRelatedFieldName (u.meta m) sub.modelName
                              (u.meta sub.modelName) true)) []
                          >>= fun pks =>
                            viewInitItems (u.tables sub.modelName) (some pks))
                        = Except.ok sview := hsv
                    cases hcf : (xs.map some).foldlM (subViewStep (u.meta m)
                        (findRelatedFieldName (u.meta m) sub.modelName
                          (u.meta sub.modelName) true)) [] with
                    | error e =>
                        rw [hcf] at hsv2
                        simp only [exc_bind_error] at hsv2
                        exact Except.noConfusion hsv2
                    | ok cpks =>
                        rw [hcf] at hsv2
                        simp only [exc_bind_ok] at hsv2
                        obtain ⟨hcnd, hcprov⟩ := subViewStep_fold (u.meta m)
                          (findRelatedFieldName (u.meta m) sub.modelName
                            (u.meta sub.modelName) true) xs [] cpks hcf
                        obtain ⟨ys, hys, hyslive, hysnodup, hysmem⟩ :=
                          specViewItems_good (halign sub.modelName) cpks
                            (hcnd List.nodup_nil)
                        have hsview2 : sview = ys.map some :=
                          (viewInitItems_ok hsv2).trans hys
                        rw [hsview2] at hres
                        obtain ⟨-, -, hressub⟩ :=
                          ih (key, sub) (List.mem_cons_self _ _) ys hyslive
                            hysnodup pat res hres
                        -- decompose the super-projection of the result view
                        obtain ⟨zs, hzs, hzsys⟩ :=
                          all_some_decomp res.groupViewItems ys hressub
                        cases hpv : buildSuperViewOf u sub.modelName m
                            res.groupViewItems with
                        | error e =>
                            rw [hpv] at hrun2
                            simp only [exc_bind_error] at hrun2
                            exact Except.noConfusion hrun2
                        | ok pview =>
                            rw [hpv] at hrun2
                            simp only [exc_bind_ok, pure_bind] at hrun2
                            have hpv2 :
                                (res.groupViewItems.foldlM
                                    (superViewStep (u.meta sub.modelName)
                                      (findRelatedFieldName
                                        (u.meta sub.modelName) m
                                        (u.meta m) false)) []
                                  >>= fun qs =>
                                    viewInitItems (u.tables m) (some qs))
                                = Except.ok pview := hpv
                            rw [hzs] at hpv2
                            cases hqf : (zs.map some).foldlM
                                (superViewStep (u.meta sub.modelName)
                                  (findRelatedFieldName (u.meta sub.modelName)
                                    m (u.meta m) false)) [] with
                            | error e =>
                                rw [hqf] at hpv2
                                simp only [exc_bind_error] at hpv2
                                exact Except.noConfusion hpv2
                            | ok qs =>
                                rw [hqf] at hpv2
                                simp only [exc_bind_ok] at hpv2
                                have hqprov := superViewStep_fold
                                  (u.meta sub.modelName)
                                  (findRelatedFieldName (u.meta sub.modelName)
                                    m (u.meta m) false) zs [] qs hqf
                                have hedge1 : edgeConsistent u m sub :=
                                  hedge (key, sub) (List.mem_cons_self _ _)
                                have HQ : ∀ q ∈ qs, ∃ x ∈ xs, x.pk = q := by
                                  intro q hq
                                  rcases hqprov q hq with hin | ⟨z, hz, hget⟩
                                  · exact absurd hin (List.not_mem_nil _)
                                  · have hzy : z ∈ ys := hzsys z hz
                                    obtain ⟨k, hk⟩ := hyslive z hzy
                                    have hzpk : z.pk = some k :=
                                      halign sub.modelName k z hk
                                    rcases hcprov z.pk (hysmem z hzy) with
                                      hin2 | ⟨x, hx, ps, hgx, hps⟩
                                    · exact absurd hin2 (List.not_mem_nil _)
                                    · obtain ⟨i, hi⟩ := hlive x hx
                                      have hback := hedge1 x i hi ps hgx
                                        z.pk hps z k hzpk hk
                                      rw [hget] at hback
                                      have hqi : q = some i :=
                                        FValue.vref.inj (Except.ok.inj hback)
                                      exact ⟨x, hx,
                                        by rw [halign m i x hi, hqi]⟩
                                have hpview : pview
                                    = specViewItems (u.tables m) qs :=
                                  viewInitItems_ok hpv2
                                -- the union-and-read-back of the projection
                                have hrun3 :
                                    ((allPk pview >>= fun pks =>
                                        viewInitItems (u.tables m) (some pks))
                                      >>= fun unioned =>
                                      allPk unioned >>= fun subPks =>
                                      repoSearch (u.tables m) (xs.map some)
                                          pat sf >>= fun searchRes =>
                                      viewInitItems (u.tables m)
                                          (some (subPks ++
                                            searchRes.matching_pks))
                                        >>= fun gvi =>
                                      pure (⟨subPks ++
                                          searchRes.matching_pks, gvi,
                                        searchRes.results⟩ : GSearchRes))
                                    = Except.ok r := hrun2
                                cases hap : allPk pview with
                                | error e =>
                                    rw [hap] at hrun3
                                    simp only [exc_bind_error] at hrun3
                                    exact Except.noConfusion hrun3
                                | ok pks1 =>
                                    rw [hap] at hrun3
                                    simp only [exc_bind_ok] at hrun3
                                    rw [hpview] at hap
                                    have hpks1sub := allPk_spec_subset
                                      (halign m) hlive HQ hap
                                    cases hun : viewInitItems (u.tables m)
                                        (some pks1) with
                                    | error e =>
                                        rw [hun] at hrun3
                                        simp only [exc_bind_error] at hrun3
                                        exact Except.noConfusion hrun3
                                    | ok unioned =>
                                        rw [hun] at hrun3
                                        simp only [exc_bind_ok] at hrun3
                                        have hunioned : unioned
                                            = specViewItems (u.tables m) pks1
                                          := viewInitItems_ok hun
                                        cases hsp : allPk unioned with
                                        | error e =>
                                            rw [hsp] at hrun3
                                            simp only [exc_bind_error]
                                              at hrun3
                                            exact Except.noConfusion hrun3
                                        | ok subPks =>
                                            rw [hsp] at hrun3
                                            simp only [exc_bind_ok] at hrun3
                                            rw [hunioned] at hsp
                                            have hsub := allPk_spec_subset
                                              (halign m) hlive hpks1sub hsp
                                            exact search_tail_assembly
                                              (halign m) hlive hnodup hstr
                                              hsub hrun3

lemma c1_aligned : alignedState c1Univ := by
  intro m i x h
  cases i with
  | zero =>
      have h0 : (some (some c1Obj) : Option (Option MObj)) = some (some x) := h
      have hx : c1Obj = x := Option.some.inj (Option.some.inj h0)
      rw [← hx]
      rfl
  | succ n =>
      have h1 : (none : Option (Option MObj)) = some (some x) := h
      exact Option.noConfusion h1

lemma c1_treeok : TreeOk c1Univ c1Group := by
  refine TreeOk.mk "m" ["a", "b"] [] ?_ ?_ ?_ ?_
  · intro i x h f hf
    have hx : c1Obj = x := by
      cases i with
      | zero => exact Option.some.inj (Option.some.inj h)
      | succ n => exact Option.noConfusion h
    rw [← hx]
    have hf2 : f = "a" ∨ f = "b" := by simpa using hf
    rcases hf2 with rfl | rfl
    · exact Or.inl ⟨"x", rfl⟩
    · exact Or.inl ⟨"x", rfl⟩
  · decide
  · intro sp hsp
    exact absurd hsp (List.not_mem_nil sp)
  · intro sp hsp
    exact absurd hsp (List.not_mem_nil sp)

/-- Witness for C1 (amended): on the concrete aligned one-instance state,
search with pattern `"x"` accumulates exactly the spec's own-field matches
(the instance once per matching field), every accumulated identity is the
stored instance's, and the final view holds only the original view's
entry. -/
theorem group_search_order_and_subset_witness :
    (∃ sp, ([some 0, some 0] : List (Option Nat))
        = sp ++ specOwnPks ([c1Obj].map some) "x" c1Group.searchFieldNames ∧
      ∀ p ∈ sp, ∃ x ∈ [c1Obj], x.pk = p) ∧
    (∀ p ∈ ([some 0, some 0] : List (Option Nat)),
      ∃ x ∈ [c1Obj], x.pk = p) ∧
    (∀ e ∈ ([some c1Obj, some c1Obj] : List (Option MObj)),
      e ∈ [c1Obj].map some) :=
  group_search_order_and_subset c1Univ c1_aligned c1Group c1_treeok
    [c1Obj]
    (fun x hx => by
      rcases List.mem_singleton.mp hx with rfl
      exact ⟨0, rfl⟩)
    (by decide)
    "x"
    ⟨[some 0, some 0], [some c1Obj, some c1Obj],
      [("a", ⟨[(some 0, FValue.vstr "x")], [some c1Obj]⟩),
       ("b", ⟨[(some 0, FValue.vstr "x")], [some c1Obj]⟩)]⟩
    rfl

end Rubedo
